import Mathlib

/-! Verification development for the chess notation recovery pipeline of
`Frontend/src/lib/parseChessNotation.ts`.  Strings are modelled as `List Char`
wrapped in `String`; each JavaScript regex replace used by the source is
embedded as a hand-specialized scanner with JavaScript global-replace
semantics (leftmost match, continue after the matched text, word-boundary
context taken from the original string).  The external chess rules engine
(chess.js) is the spec's legal-move oracle (§6) and is modelled as an
abstract `Oracle` parameter, with a finite chess-faithful instance used for
concrete evaluations. -/

/-- JavaScript regex whitespace class `\s` (the set used by `String.trim`,
`split(/\s+/)` and the `\s*` parts of the castling patterns). -/
def isJsWs (c : Char) : Bool :=
  c == ' ' || c == '\t' || c == '\n' || c.val == 11 || c.val == 12 || c == '\r' ||
  c.val == 0xa0 || c.val == 0x1680 ||
  (decide (0x2000 ≤ c.val) && decide (c.val ≤ 0x200a)) ||
  c.val == 0x2028 || c.val == 0x2029 || c.val == 0x202f || c.val == 0x205f ||
  c.val == 0x3000 || c.val == 0xfeff

/-- JavaScript regex word character class `\w` (used for `\b` boundaries). -/
def isWordChar (c : Char) : Bool :=
  (decide ('A' ≤ c) && decide (c ≤ 'Z')) || (decide ('a' ≤ c) && decide (c ≤ 'z')) ||
  (decide ('0' ≤ c) && decide (c ≤ '9')) || c == '_'

/-- Result of one successful pattern match at the head of the input: the
replacement text, the last character of the matched original text (context for
a following word boundary), and the input after the match. -/
abbrev MatchRes := List Char × Char × List Char

/-- A matcher: given the previous original character (`none` at the start of
the string) and the current suffix, try to match the pattern at the head. -/
abbrev Try := Option Char → List Char → Option MatchRes

/-- Fuel-bounded scan implementing a JavaScript global regex replace: try the
pattern at every position from left to right, replacing each match and
resuming after it.  The fuel is always instantiated to the string length,
which suffices because every matcher consumes at least one character. -/
def scanRepl (t : Try) : Nat → Option Char → List Char → List Char
  | 0, _, l => l
  | _ + 1, _, [] => []
  | n + 1, prev, c :: cs =>
    match t prev (c :: cs) with
    | some (repl, lastc, rest) => repl ++ scanRepl t n (some lastc) rest
    | none => c :: scanRepl t n (some c) cs

/-- JavaScript `str.replace(/pat/g, repl)`. -/
def replaceG (t : Try) (l : List Char) : List Char := scanRepl t l.length none l

/-- Fuel-bounded scan for a non-global replace: replace only the first match. -/
def scanOnce (t : Try) : Nat → Option Char → List Char → List Char
  | 0, _, l => l
  | _ + 1, _, [] => []
  | n + 1, prev, c :: cs =>
    match t prev (c :: cs) with
    | some (repl, _, rest) => repl ++ rest
    | none => c :: scanOnce t n (some c) cs

/-- JavaScript `str.replace(/pat/, repl)` (no `g` flag). -/
def replace1 (t : Try) (l : List Char) : List Char := scanOnce t l.length none l

/-- Matcher combinator: the pattern can only start with a character satisfying
`g`; the continuation parses the remainder. -/
def tryHead (g : Char → Bool) (k : Option Char → Char → List Char → Option MatchRes) : Try :=
  fun prev l =>
    match l with
    | [] => none
    | c :: cs => if g c then k prev c cs else none

/-- Whether the previous-character context makes a `\b` before a word
character fail (i.e. the previous character is a word character). -/
def isWordStart (prev : Option Char) : Bool :=
  match prev with
  | some p => isWordChar p
  | none => false

/-- Whether the next character makes a `\b` after a word character fail. -/
def isWordNext (rest : List Char) : Bool :=
  match rest.head? with
  | some c => isWordChar c
  | none => false

/-- Parse `\s*-\s*` (greedy whitespace around a literal dash). -/
def eatSepDash (l : List Char) : Option (List Char) :=
  match l.dropWhile isJsWs with
  | '-' :: r => some (r.dropWhile isJsWs)
  | _ => none

/-- Parse `(\s*-\s*⟨cls⟩)^n`, returning the last matched character and the
rest of the input. -/
def chainFrom (cls : Char → Bool) : Nat → Char → List Char → Option (Char × List Char)
  | 0, lastc, l => some (lastc, l)
  | n + 1, _, l =>
    match eatSepDash l with
    | some l1 =>
      match l1 with
      | c :: r => if cls c then chainFrom cls n c r else none
      | [] => none
    | none => none

/-- Matcher for `⟨cls⟩(\s*-\s*⟨cls⟩)^n`, with optional word boundaries at both
ends (used by the `\bO\s*-\s*O\b` style patterns). -/
def tryCastleChain (cls : Char → Bool) (n : Nat) (repl : List Char) (bdry : Bool) : Try :=
  tryHead cls fun prev c cs =>
    if bdry && isWordStart prev then none
    else
      match chainFrom cls n c cs with
      | some (lastc, rest) =>
        if bdry && isWordNext rest then none else some (repl, lastc, rest)
      | none => none

/-- The digit zero, first character of the `0-0` castling spellings. -/
def isZero (c : Char) : Bool := c == '0'

/-- The `[oО]` class of the source with the `i` flag: Latin o/O and Cyrillic
о/О. -/
def isOLike (c : Char) : Bool := c == 'o' || c == 'O' || c == 'О' || c == 'о'

/-- The literal `O` (patterns without the `i` flag). -/
def isBigO (c : Char) : Bool := c == 'O'

/-- Matcher for `\b00\b`. -/
def tryZeros2 : Try :=
  tryHead isZero fun prev _ cs =>
    if isWordStart prev then none
    else
      match cs with
      | c2 :: rest =>
        if isZero c2 && !isWordNext rest then some ("O-O".data, c2, rest) else none
      | [] => none

/-- Matcher for `\b000\b`. -/
def tryZeros3 : Try :=
  tryHead isZero fun prev _ cs =>
    if isWordStart prev then none
    else
      match cs with
      | c2 :: c3 :: rest =>
        if isZero c2 && isZero c3 && !isWordNext rest then some ("O-O-O".data, c3, rest)
        else none
      | _ => none

/-- Matcher for the literal `\b0-0\b`. -/
def tryLit00 : Try :=
  tryHead isZero fun prev _ cs =>
    if isWordStart prev then none
    else
      match cs with
      | '-' :: c2 :: rest =>
        if isZero c2 && !isWordNext rest then some ("O-O".data, c2, rest) else none
      | _ => none

/-- Matcher for the literal `\b0-0-0\b`. -/
def tryLit000 : Try :=
  tryHead isZero fun prev _ cs =>
    if isWordStart prev then none
    else
      match cs with
      | '-' :: c2 :: '-' :: c3 :: rest =>
        if isZero c2 && isZero c3 && !isWordNext rest then some ("O-O-O".data, c3, rest)
        else none
      | _ => none

/-- `normalizeCastling` from the source: ten sequential global replaces, in
source order. -/
def castleList (l : List Char) : List Char :=
  let l := replaceG (tryCastleChain isZero 2 "O-O-O".data false) l
  let l := replaceG (tryCastleChain isZero 1 "O-O".data false) l
  let l := replaceG (tryCastleChain isOLike 2 "O-O-O".data false) l
  let l := replaceG (tryCastleChain isOLike 1 "O-O".data false) l
  let l := replaceG (tryCastleChain isBigO 2 "O-O-O".data true) l
  let l := replaceG (tryCastleChain isBigO 1 "O-O".data true) l
  let l := replaceG tryZeros2 l
  let l := replaceG tryZeros3 l
  let l := replaceG tryLit00 l
  let l := replaceG tryLit000 l
  l

/-- `normalizeCastling(text)` of the source. -/
def normalizeCastling (s : String) : String := ⟨castleList s.data⟩

/-- The backquote character, written by code point to keep it out of the
source text. -/
def backquote : Char := Char.ofNat 96

/-- Matcher for ```` ```pgn\s* ```` with the `i` flag. -/
def tryFencePgn : Try :=
  tryHead (fun c => c == backquote) fun _ _ cs =>
    match cs with
    | b2 :: b3 :: cp :: cg :: cn :: rest =>
      if b2 == backquote && b3 == backquote && (cp == 'p' || cp == 'P') &&
          (cg == 'g' || cg == 'G') && (cn == 'n' || cn == 'N') then
        let run := rest.takeWhile isJsWs
        some ([], (run.getLast?).getD cn, rest.dropWhile isJsWs)
      else none
    | _ => none

/-- Matcher for ```` ``` ````. -/
def tryFence3 : Try :=
  tryHead (fun c => c == backquote) fun _ _ cs =>
    match cs with
    | b2 :: b3 :: rest =>
      if b2 == backquote && b3 == backquote then some ([], b3, rest) else none
    | _ => none

/-- Matcher for `\*\*`. -/
def tryBold : Try :=
  tryHead (fun c => c == '*') fun _ _ cs =>
    match cs with
    | c2 :: rest => if c2 == '*' then some ([], c2, rest) else none
    | [] => none

/-- Matcher for the no-break space ` `. -/
def tryNbsp : Try :=
  tryHead (fun c => c.val == 0xa0) fun _ c cs => some ([' '], c, cs)

/-- Matcher for `\r`. -/
def tryCr : Try :=
  tryHead (fun c => c == '\r') fun _ c cs => some (['\n'], c, cs)

/-- JavaScript `String.prototype.trim`. -/
def trimList (l : List Char) : List Char :=
  ((l.dropWhile isJsWs).reverse.dropWhile isJsWs).reverse

/-- JavaScript `String.prototype.trimEnd`. -/
def trimEndList (l : List Char) : List Char :=
  (l.reverse.dropWhile isJsWs).reverse

/-- `cleanPgnInput(input)` of the source: remove code fences and bold markup,
normalize no-break spaces and carriage returns, and trim. -/
def cleanList (l : List Char) : List Char :=
  trimList (replaceG tryCr (replaceG tryNbsp (replaceG tryBold
    (replaceG tryFence3 (replaceG tryFencePgn l)))))

/-- `cleanPgnInput` on `String`s (the `!input` guard of the source returns the
empty string, which the pipeline below also produces). -/
def cleanPgnInput (s : String) : String :=
  if s = "" then "" else ⟨cleanList s.data⟩

/-- Matcher for `\[[^\]]*\]`. -/
def tryTag : Try :=
  tryHead (fun c => c == '[') fun _ _ cs =>
    match cs.dropWhile (fun c => c != ']') with
    | ']' :: rest => some ([' '], ']', rest)
    | _ => none

/-- Matcher for `\{[^}]*\}`. -/
def tryBrace : Try :=
  tryHead (fun c => c == '{') fun _ _ cs =>
    match cs.dropWhile (fun c => c != '}') with
    | '}' :: rest => some ([' '], '}', rest)
    | _ => none

/-- Matcher for `;[^\n]*`. -/
def trySemi : Try :=
  tryHead (fun c => c == ';') fun _ c cs =>
    let run := cs.takeWhile (fun d => d != '\n')
    some ([' '], (run.getLast?).getD c, cs.dropWhile (fun d => d != '\n'))

/-- Matcher for `\([^()]*\)`. -/
def tryParen : Try :=
  tryHead (fun c => c == '(') fun _ _ cs =>
    match cs.dropWhile (fun c => c != '(' && c != ')') with
    | ')' :: rest => some ([' '], ')', rest)
    | _ => none

/-- The source's `do … while` loop removing parenthesised variations until a
fixed point is reached; removing a match strictly shortens the string, so the
string length bounds the number of useful iterations. -/
def parenFixAux : Nat → List Char → List Char
  | 0, l => l
  | n + 1, l =>
    let l' := replaceG tryParen l
    if l' = l then l else parenFixAux n l'

/-- Iterated variation removal at fixpoint. -/
def parenFix (l : List Char) : List Char := parenFixAux (l.length + 1) l

/-- Matcher for `\s+` (used by the final whitespace collapse). -/
def tryWsRun : Try :=
  tryHead isJsWs fun _ c cs =>
    let run := cs.takeWhile isJsWs
    some ([' '], (run.getLast?).getD c, cs.dropWhile isJsWs)

/-- `stripPgnMetadata(text)` of the source: remove tag pairs, brace comments,
semicolon comments and nested variations, then collapse whitespace and trim. -/
def stripList (l : List Char) : List Char :=
  trimList (replaceG tryWsRun (parenFix (replaceG trySemi
    (replaceG tryBrace (replaceG tryTag l)))))

/-- `stripPgnMetadata` on `String`s. -/
def stripPgnMetadata (s : String) : String :=
  if s = "" then "" else ⟨stripList s.data⟩

/-- The `O`/`o` class of the anchored castling test `/^(O-O-O|O-O)$/i`. -/
def isOi (c : Char) : Bool := c == 'O' || c == 'o'

/-- `/^(O-O-O|O-O)$/i` as a whole-string test. -/
def isCastleLit (s : String) : Bool :=
  match s.data with
  | [a, '-', b, '-', c] => isOi a && isOi b && isOi c
  | [a, '-', b] => isOi a && isOi b
  | _ => false

/-- Lower-case file letter `[a-h]` (case-sensitive). -/
def isFileCS (c : Char) : Bool := decide ('a' ≤ c) && decide (c ≤ 'h')

/-- Rank digit `[1-8]`. -/
def isRank (c : Char) : Bool := decide ('1' ≤ c) && decide (c ≤ '8')

/-- Unanchored search `/[a-h][1-8]/` (case-sensitive, no `i` flag). -/
def hasFileRankL : List Char → Bool
  | a :: b :: rest => (isFileCS a && isRank b) || hasFileRankL (b :: rest)
  | _ => false

/-- `/[a-h][1-8]/.test` on `String`s. -/
def hasFileRank (s : String) : Bool := hasFileRankL s.data

/-- Piece letters under the `i` flag. -/
def isPieceCI (c : Char) : Bool :=
  (['N', 'B', 'R', 'Q', 'K', 'n', 'b', 'r', 'q', 'k'] : List Char).contains c

/-- File letters under the `i` flag (the `i` flag applies to the whole
pattern, so `[a-h]` also matches upper-case letters). -/
def isFileCI (c : Char) : Bool := isFileCS c || (decide ('A' ≤ c) && decide (c ≤ 'H'))

/-- Capture letter `x` under the `i` flag. -/
def isXCI (c : Char) : Bool := c == 'x' || c == 'X'

/-- Capture letter `x`, case-sensitive. -/
def isXCS (c : Char) : Bool := c == 'x'

/-- Promotion letters under the `i` flag. -/
def isPromoCI (c : Char) : Bool :=
  (['N', 'B', 'R', 'Q', 'n', 'b', 'r', 'q'] : List Char).contains c

/-- Promotion letters, case-sensitive, as the spec lists them. -/
def isPromoCS (c : Char) : Bool := (['N', 'B', 'R', 'Q'] : List Char).contains c

/-- Tail of the move pattern after the destination square: `(?:=⟨promo⟩)?$`. -/
def matchPromoEnd (promo : Char → Bool) : List Char → Bool
  | [] => true
  | [a, b] => a == '=' && promo b
  | _ => false

/-- `⟨file⟩⟨rank⟩(?:=⟨promo⟩)?$`. -/
def matchDest (file rank promo : Char → Bool) : List Char → Bool
  | d1 :: d2 :: rest => file d1 && rank d2 && matchPromoEnd promo rest
  | _ => false

/-- `⟨x⟩?` then destination: try consuming one `x`, or not (regex
backtracking over an optional single-character group). -/
def matchOptX (file rank x promo : Char → Bool) (l : List Char) : Bool :=
  (match l with
   | c :: cs => x c && matchDest file rank promo cs
   | [] => false) || matchDest file rank promo l

/-- `⟨rank⟩?` then the rest. -/
def matchOptRank (file rank x promo : Char → Bool) (l : List Char) : Bool :=
  (match l with
   | c :: cs => rank c && matchOptX file rank x promo cs
   | [] => false) || matchOptX file rank x promo l

/-- `⟨file⟩?` then the rest. -/
def matchOptFile (file rank x promo : Char → Bool) (l : List Char) : Bool :=
  (match l with
   | c :: cs => file c && matchOptRank file rank x promo cs
   | [] => false) || matchOptRank file rank x promo l

/-- The anchored move pattern
`^⟨piece⟩?⟨file⟩?⟨rank⟩?⟨x⟩?⟨file⟩⟨rank⟩(?:=⟨promo⟩)?$`, parameterized by its
character classes. -/
def matchCore (piece file rank x promo : Char → Bool) (l : List Char) : Bool :=
  (match l with
   | c :: cs => piece c && matchOptFile file rank x promo cs
   | [] => false) || matchOptFile file rank x promo l

/-- The check/mate/annotation marks removed by `isValidMove`:
`/[+#?!]/g`. -/
def isMark (c : Char) : Bool := c == '+' || c == '#' || c == '?' || c == '!'

/-- Matcher deleting one mark character. -/
def tryMark : Try := tryHead isMark fun _ c cs => some ([], c, cs)

/-- `move.replace(/[+#?!]/g, '')`. -/
def removeMarks (s : String) : String := ⟨replaceG tryMark s.data⟩

/-- JavaScript `trim` on `String`s. -/
def jsTrim (s : String) : String := ⟨trimList s.data⟩

/-- JavaScript `trimEnd` on `String`s. -/
def jsTrimEnd (s : String) : String := ⟨trimEndList s.data⟩

/-- `isValidMove(move)` of the source: length guard, mark removal and trim,
castling normalization, castling-literal test, destination-pair search, and
the anchored move pattern (all under the `i` flag). -/
def isValidMove (mv : String) : Bool :=
  if mv.length < 2 then false
  else if isCastleLit (normalizeCastling (jsTrim (removeMarks mv))) then true
  else if !hasFileRank (normalizeCastling (jsTrim (removeMarks mv))) then false
  else
    matchCore isPieceCI isFileCI isRank isXCI isPromoCI
      (normalizeCastling (jsTrim (removeMarks mv))).data

/-- The legal-move oracle of spec §6: the external chess rules engine
(chess.js).  `move` applies one notation token to a position (`none` models
both a `null` return and a thrown exception), `movesList` enumerates the
legal moves in the engine's notation, `fen` serializes a position, and
`loadPgn` parses a whole game text and returns the accepted move history
(`none` models a thrown exception). -/
structure Oracle (β : Type) where
  init : β
  move : β → String → Option β
  movesList : β → List String
  fen : β → String
  loadPgn : String → Option (List String)

/-- Piece letters of the disambiguation shapes `[RNBQK]`. -/
def isPieceD (c : Char) : Bool := (['R', 'N', 'B', 'Q', 'K'] : List Char).contains c

/-- `/^[RNBQK][a-h]?[1-8]$/.test(move)`. -/
def disambigShape1 (l : List Char) : Bool :=
  match l with
  | [p, r] => isPieceD p && isRank r
  | [p, f, r] => isPieceD p && isFileCS f && isRank r
  | _ => false

/-- `/^[RNBQK]x[a-h][1-8]$/.test(move)`. -/
def disambigShape2 (l : List Char) : Bool :=
  match l with
  | [p, 'x', f, r] => isPieceD p && isFileCS f && isRank r
  | _ => false

/-- JavaScript `move.slice(-2)`. -/
def lastTwo (s : String) : String := ⟨s.data.drop (s.data.length - 2)⟩

/-- The file letters tried by the disambiguation search, in source order. -/
def fileLetters : List Char := ['a', 'b', 'c', 'd', 'e', 'f', 'g', 'h']

/-- The rank digits tried by the disambiguation search, in source order. -/
def rankDigits : List Char := ['1', '2', '3', '4', '5', '6', '7', '8']

/-- Candidates `${piece}${c}${destination}` for files then ranks. -/
def disambigCandidates1 (mv : String) : List String :=
  let p := mv.data.headD 'R'
  let dest := lastTwo mv
  (fileLetters ++ rankDigits).map (fun c => (⟨[p, c]⟩ : String) ++ dest)

/-- Candidates `${piece}${c}x${destination}` for files then ranks. -/
def disambigCandidates2 (mv : String) : List String :=
  let p := mv.data.headD 'R'
  let dest := lastTwo mv
  (fileLetters ++ rankDigits).map (fun c => (⟨[p, c, 'x']⟩ : String) ++ dest)

/-- Matcher for `/([a-h])⟨d⟩/g` with replacement `$1⟨repl⟩`. -/
def tryFileDigit (d repl : Char) : Try :=
  tryHead isFileCS fun _ c cs =>
    match cs with
    | c2 :: rest => if c2 == d then some ([c, repl], c2, rest) else none
    | [] => none

/-- Digit class `\d`. -/
def isDigitC (c : Char) : Bool := decide ('0' ≤ c) && decide (c ≤ '9')

/-- Matcher for `/⟨p⟩⟨a⟩(\d)/` with replacement `⟨p⟩⟨b⟩$1`. -/
def tryPieceLetter (p a b : Char) : Try :=
  tryHead (fun c => c == p) fun _ _ cs =>
    match cs with
    | c2 :: c3 :: rest =>
      if c2 == a && isDigitC c3 then some ([p, b, c3], c3, rest) else none
    | _ => none

/-- Matcher for `/⟨a⟩([1-8])/` with replacement `⟨b⟩$1`. -/
def tryLetterRank (a b : Char) : Try :=
  tryHead (fun c => c == a) fun _ _ cs =>
    match cs with
    | c2 :: rest => if isRank c2 then some ([b, c2], c2, rest) else none
    | [] => none

/-- Matcher for a single literal character `⟨a⟩` replaced by `⟨b⟩`. -/
def tryChar (a b : Char) : Try :=
  tryHead (fun c => c == a) fun _ _ cs => some ([b], '-', cs) |>.map (fun r => (r.1, a, r.2.2))

/-- The source's `corrections` table, in order: seven global square-digit
shifts, eight first-occurrence piece-letter confusions, seven
first-occurrence pawn-square letter confusions, and the `l`/`1` pair. -/
def corrList : List (String → String) :=
  [ fun s => ⟨replaceG (tryFileDigit '6' '5') s.data⟩,
    fun s => ⟨replaceG (tryFileDigit '5' '6') s.data⟩,
    fun s => ⟨replaceG (tryFileDigit '3' '4') s.data⟩,
    fun s => ⟨replaceG (tryFileDigit '4' '3') s.data⟩,
    fun s => ⟨replaceG (tryFileDigit '2' '3') s.data⟩,
    fun s => ⟨replaceG (tryFileDigit '7' '8') s.data⟩,
    fun s => ⟨replaceG (tryFileDigit '8' '7') s.data⟩,
    fun s => ⟨replace1 (tryPieceLetter 'N' 'a' 'g') s.data⟩,
    fun s => ⟨replace1 (tryPieceLetter 'N' 'g' 'a') s.data⟩,
    fun s => ⟨replace1 (tryPieceLetter 'B' 'a' 'g') s.data⟩,
    fun s => ⟨replace1 (tryPieceLetter 'B' 'g' 'a') s.data⟩,
    fun s => ⟨replace1 (tryPieceLetter 'R' 'a' 'g') s.data⟩,
    fun s => ⟨replace1 (tryPieceLetter 'R' 'g' 'a') s.data⟩,
    fun s => ⟨replace1 (tryPieceLetter 'Q' 'a' 'g') s.data⟩,
    fun s => ⟨replace1 (tryPieceLetter 'Q' 'g' 'a') s.data⟩,
    fun s => ⟨replace1 (tryLetterRank 'a' 'g') s.data⟩,
    fun s => ⟨replace1 (tryLetterRank 'g' 'a') s.data⟩,
    fun s => ⟨replace1 (tryLetterRank 'b' 'h') s.data⟩,
    fun s => ⟨replace1 (tryLetterRank 'h' 'b') s.data⟩,
    fun s => ⟨replace1 (tryLetterRank 'c' 'e') s.data⟩,
    fun s => ⟨replace1 (tryLetterRank 'e' 'c') s.data⟩,
    fun s => ⟨replace1 (tryLetterRank 'd' 'a') s.data⟩,
    fun s => ⟨replace1 (tryChar 'l' '1') s.data⟩,
    fun s => ⟨replace1 (tryChar '1' 'l') s.data⟩ ]

/-- The substitution loop of `tryOcrCorrections`: each changed candidate is
tested on a fresh copy of the position (`new Chess(chess.fen())`, modelled as
the same position value); the first one the oracle accepts is returned. -/
def substSearch {β : Type} (O : Oracle β) (mv : String) (chess : β) : Option String :=
  corrList.findSome? fun f =>
    let corrected := f mv
    if corrected ≠ mv then
      match O.move chess corrected with
      | some _ => some corrected
      | none => none
    else none

/-- The first disambiguation search (`[piece][dest]` shapes): the first
candidate occurring in the oracle's legal-move enumeration. -/
def disambigFind1 {β : Type} (O : Oracle β) (mv : String) (chess : β) : Option String :=
  if disambigShape1 mv.data then
    (disambigCandidates1 mv).find? (fun d => (O.movesList chess).contains d)
  else none

/-- The second disambiguation search (`[piece]x[dest]` shapes). -/
def disambigFind2 {β : Type} (O : Oracle β) (mv : String) (chess : β) : Option String :=
  if disambigShape2 mv.data then
    (disambigCandidates2 mv).find? (fun d => (O.movesList chess).contains d)
  else none

/-- `tryOcrCorrections(move, chess)` of the source: disambiguation insertions
checked against the oracle's legal-move list, then the character-substitution
table; the early returns of the source are the left-biased choice. -/
def tryOcrCorrections {β : Type} (O : Oracle β) (mv : String) (chess : β) : Option String :=
  (disambigFind1 O mv chess).or ((disambigFind2 O mv chess).or (substSearch O mv chess))

/-- State-threaded embedding of `tryOcrCorrections`: a chess.js object is a
mutable variable holding a position value.  The body only reads the `chess`
argument (`chess.moves()`, `chess.fen()`) and mutates fresh copies
(`new Chess(chess.fen())`) inside `substSearch`, so the final value of the
`chess` variable — the second component — is its initial value. -/
def tryOcrCorrectionsSt {β : Type} (O : Oracle β) (mv : String) (chess : β) :
    Option String × β :=
  (tryOcrCorrections O mv chess, chess)

/-- JavaScript `str.split(/\s+/)`: separators are the maximal nonempty
whitespace runs, and the (possibly empty) fragments before the first and
after the last separator are kept. -/
def splitWsAux : Nat → List Char → List (List Char)
  | 0, l => [l]
  | n + 1, l =>
    let tok := l.takeWhile (fun c => !isJsWs c)
    match l.dropWhile (fun c => !isJsWs c) with
    | [] => [tok]
    | rest => tok :: splitWsAux n (rest.dropWhile isJsWs)

/-- `split(/\s+/)` on `String`s. -/
def splitWs (s : String) : List String :=
  (splitWsAux (s.data.length + 1) s.data).map (fun l => (⟨l⟩ : String))

/-- `/^\d+\.$/.test(token)`. -/
def isNumDotTok (l : List Char) : Bool :=
  l.takeWhile isDigitC ≠ [] && l.dropWhile isDigitC == ['.']

/-- The numeric value of the leading digit run: JavaScript
`parseInt(token)` on a token of shape `digits '.'`. -/
def digitsVal (l : List Char) : Nat :=
  l.foldl (fun a c => a * 10 + (c.toNat - 48)) 0

/-- `parseInt` on a move-number token. -/
def parseIntTok (l : List Char) : Nat := digitsVal (l.takeWhile isDigitC)

/-- Matcher for `/\d+\./g`: a maximal digit run followed by a dot (a shorter
run would be followed by a digit, so greedy matching is exact). -/
def tryNumDot : Try :=
  tryHead isDigitC fun _ _ cs =>
    match cs.dropWhile isDigitC with
    | '.' :: rest => some ([], '.', rest)
    | _ => none

/-- The outcome of the token replay loop inside `validatePgnWithDetails`:
the list of accepted (possibly corrected) tokens in order, the final board,
and the recorded failure description if the loop broke. -/
structure ReplayOut (β : Type) where
  accepted : List String
  board : β
  failedAt : Option String

/-- The token loop of `validatePgnWithDetails`: skip empty and move-number
tokens, strip embedded move numbers, re-normalize castling per token, replay
against the oracle, and on rejection consult the corrector; an accepted
correction is applied to the live board, an exhausted corrector stops the
loop and records the failure.  `strippedTok` is the token with the
`trim`/move-number-removal steps applied. -/
def strippedTok (t : String) : String :=
  jsTrim (⟨replaceG tryNumDot (jsTrim t).data⟩ : String)

/-- The per-token normalization of the loop: strip embedded move numbers and
re-apply castling normalization. -/
def normTok (t : String) : String := normalizeCastling (strippedTok t)

def replayLoop {β : Type} (O : Oracle β) : β → Nat → List String → ReplayOut β
  | b, _, [] => ⟨[], b, none⟩
  | b, n, t :: ts =>
    if jsTrim t = "" then replayLoop O b n ts
    else if isNumDotTok (jsTrim t).data then replayLoop O b (parseIntTok (jsTrim t).data) ts
    else if strippedTok t = "" then replayLoop O b n ts
    else
      match O.move b (normTok t) with
      | some b2 =>
        let r := replayLoop O b2 n ts
        ⟨normTok t :: r.accepted, r.board, r.failedAt⟩
      | none =>
        match tryOcrCorrections O (normTok t) b with
        | some c =>
          let r := replayLoop O ((O.move b c).getD b) n ts
          ⟨c :: r.accepted, r.board, r.failedAt⟩
        | none => ⟨[], b, some (jsTrim t ++ " (move " ++ toString n ++ ")")⟩

/-- The reconstruction of the returned notation from the accepted tokens
(the `reconstructedPgn` loop of the source). -/
def fmtAcc : Nat → List String → String
  | _, [] => ""
  | n, [a] => toString n ++ ". " ++ a ++ " "
  | n, a :: b :: rest =>
    toString n ++ ". " ++ a ++ (if b ≠ "" then " " ++ b else "") ++ " " ++ fmtAcc (n + 1) rest

/-- Canonical notation built strictly from accepted tokens. -/
def formatAccepted (pm : List String) : String := jsTrim (fmtAcc 1 pm)

/-- The segment list of `formatHistoryAsPgn`. -/
def fmtHist : Nat → List String → List String
  | _, [] => []
  | n, [w] => if w = "" then [] else [jsTrimEnd (toString n ++ ". " ++ w)]
  | n, w :: b :: rest =>
    (if w = "" && b = "" then ([] : List String)
     else [jsTrimEnd (toString n ++ ". " ++ w) ++ (if b ≠ "" then " " ++ b else "")]) ++
      fmtHist (n + 1) rest

/-- JavaScript `Array.prototype.join(" ")`. -/
def joinSpace : List String → String
  | [] => ""
  | [a] => a
  | a :: rest => a ++ " " ++ joinSpace rest

/-- `formatHistoryAsPgn(history)` of the source. -/
def formatHistoryAsPgn (h : List String) : String := jsTrim (joinSpace (fmtHist 1 h))

/-- The record returned by `validatePgnWithDetails`. -/
structure ValidationResult where
  valid : Bool
  failedAt : Option String := none
  reconstructed : Option String := none
  moveCount : Nat
deriving DecidableEq, Repr

/-- The catch-branch of `validatePgnWithDetails` (runs when `loadPgn` throws
or parses zero moves): replay token by token and package the outcome.
`reconstructed` embeds the source's partially-reconstructed notation field. -/
def validateFallback {β : Type} (O : Oracle β) (cleanedPgn : String) : ValidationResult :=
  let ro := replayLoop O O.init 1 (splitWs cleanedPgn)
  if ro.accepted ≠ [] then
    { valid := false, failedAt := some (ro.failedAt.getD "end of game"),
      reconstructed := some (formatAccepted ro.accepted),
      moveCount := (ro.accepted.length + 1) / 2 }
  else
    { valid := false, failedAt := some (ro.failedAt.getD "start"), moveCount := 0 }

/-- `validatePgnWithDetails(pgn)` of the source.  `moveCount` is
`Math.ceil(history.length / 2)`, i.e. full-move pairs. -/
def validatePgnWithDetails {β : Type} (O : Oracle β) (pgn : String) : ValidationResult :=
  let cleanedPgn := stripPgnMetadata (normalizeCastling pgn)
  match O.loadPgn cleanedPgn with
  | some h =>
    if (h.length + 1) / 2 = 0 then validateFallback O cleanedPgn
    else { valid := true, moveCount := (h.length + 1) / 2 }
  | none => validateFallback O cleanedPgn

/-- The record resolved by the parsing entry points (`ParseResult` of the
source; absent optional fields are `none`). -/
structure ParseResult where
  success : Bool
  pgn : Option String := none
  error : Option String := none
  movesFound : Option Nat := none
  isPartial : Option Bool := none
deriving DecidableEq, Repr

/-- JavaScript truthiness of an optional string field. -/
def optTruthy (o : Option String) : Bool :=
  match o with
  | some p => p != ""
  | none => false

/-- The `normalizedInput` of `parsePgnTextInput`. -/
def normalizedOf (raw : String) : String := normalizeCastling (cleanPgnInput raw)

/-- The `stripped` candidate of `parsePgnTextInput`. -/
def strippedOf (raw : String) : String := stripPgnMetadata (normalizedOf raw)

/-- The candidate list handed to the whole-game parse (the stripped text is
added only when nonempty and different). -/
def candidatesOf (raw : String) : List String :=
  if strippedOf raw ≠ "" ∧ strippedOf raw ≠ normalizedOf raw then
    [normalizedOf raw, strippedOf raw]
  else [normalizedOf raw]

/-- The candidate loop of `parsePgnTextInput`: the first candidate the oracle
parses with a nonempty history. -/
def firstLoad {β : Type} (O : Oracle β) (raw : String) : Option (List String) :=
  (candidatesOf raw).findSome? (fun c =>
    (O.loadPgn c).bind (fun h => if 0 < h.length then some h else none))

/-- `stripped || normalizedInput`, the argument handed to the validator and
returned as the notation on the validation path. -/
def validateArg (raw : String) : String :=
  if strippedOf raw ≠ "" then strippedOf raw else normalizedOf raw

/-- `parsePgnTextInput(rawInput)` of the source, over the abstract oracle. -/
def parsePgnTextInput {β : Type} (O : Oracle β) (raw : String) : ParseResult :=
  if cleanPgnInput raw = "" then
    { success := false, error := some "Please paste a valid PGN string." }
  else
    match firstLoad O raw with
    | some h =>
      { success := true, pgn := some (formatHistoryAsPgn h),
        movesFound := some ((h.length + 1) / 2) }
    | none =>
      if (validatePgnWithDetails O (validateArg raw)).valid then
        { success := true, pgn := some (validateArg raw),
          movesFound := some (validatePgnWithDetails O (validateArg raw)).moveCount }
      else if optTruthy (validatePgnWithDetails O (validateArg raw)).reconstructed = true ∧
          0 < (validatePgnWithDetails O (validateArg raw)).moveCount then
        { success := true, pgn := (validatePgnWithDetails O (validateArg raw)).reconstructed,
          movesFound := some (validatePgnWithDetails O (validateArg raw)).moveCount,
          isPartial := some true }
      else
        { success := false,
          error := some (match (validatePgnWithDetails O (validateArg raw)).failedAt with
            | some f => "Unable to parse PGN. Problem detected near " ++ f ++ "."
            | none => "Unable to parse PGN. Please verify the notation and try again.") }

/-- A CSV row as delivered by the external CSV reader with `header: true`:
an association list from header names to cell values. -/
def rowField (row : List (String × String)) (key : String) : Option String :=
  (row.find? (fun p => p.1 == key)).map (fun p => p.2)

/-- JavaScript `a || b` for an optional field against a fallback string. -/
def truthyOr (a : Option String) (b : String) : String :=
  match a with
  | some v => if v = "" then b else v
  | none => b

/-- `row.White || row.white || ""` (and the Black analogue). -/
def getCol (row : List (String × String)) (k1 k2 : String) : String :=
  truthyOr (rowField row k1) (truthyOr (rowField row k2) "")

/-- The row loop of `parseCSV`: accumulate the notation string and the move
number. -/
def csvRows : Nat → String → List (List (String × String)) → String × Nat
  | n, pgn, [] => (pgn, n)
  | n, pgn, row :: rest =>
    let white := getCol row "White" "white"
    let black := getCol row "Black" "black"
    if white = "" ∧ black = "" then csvRows n pgn rest
    else
      let pgn1 := pgn ++ (if white ≠ "" then toString n ++ ". " ++ jsTrim white ++ " " else "")
      let pgn2 := pgn1 ++ (if black ≠ "" then jsTrim black ++ " " else "")
      csvRows (n + 1) pgn2 rest

/-- The `complete` callback body of `parseCSV`: build the notation from the
rows and package it, with no validation or replay of the tokens. -/
def parseCSVRows (rows : List (List (String × String))) : ParseResult :=
  let pr := csvRows 1 "" rows
  if jsTrim pr.1 = "" then
    { success := false, error := some "No valid chess moves found in CSV" }
  else
    { success := true, pgn := some (jsTrim pr.1), movesFound := some (pr.2 - 1) }

/-- Modelled from the spec: the legal-move relation of the external chess
rules engine (legal-move oracle, spec §6), which is not part of this
repository.  A position is identified with its accepted-move history from the
standard initial position; the finitely many positions reached in this
development are listed with their standard-chess legal continuations, and
every other (position, token) pair is rejected, matching the engine on every
query the theorems below evaluate. -/
def legalExt : List String → String → Bool
  | [], "e4" => true
  | ["e4"], "e5" => true
  | ["e4", "e5"], "Nf3" => true
  | ["e4", "e5", "Nf3"], "Nc6" => true
  | ["e4", "e5", "Nf3", "Nc6"], "Bc4" => true
  | ["e4", "e5", "Nf3", "Nc6", "Bc4"], "Bc5" => true
  | ["e4", "e5", "Nf3", "Nc6", "Bc4", "Bc5"], "O-O" => true
  | _, _ => false

/-- Modelled from the spec: the whole-game parse of the external engine
(`chess.loadPgn` followed by `history()`), restricted to the game texts this
development evaluates; every other text fails to parse, as it does in the
engine. -/
def oracleLoadPgn : String → Option (List String)
  | "1. e4" => some ["e4"]
  | "1. e4 e5 2. Nf3 Nc6" => some ["e4", "e5", "Nf3", "Nc6"]
  | "1. e4 e5 2. Nf3 Nc6 3. Bc4 Bc5 4. O-O" =>
    some ["e4", "e5", "Nf3", "Nc6", "Bc4", "Bc5", "O-O"]
  | _ => none

/-- Modelled from the spec: the legal-move oracle instance used for concrete
evaluations.  `movesList` is unused on every position this development
reaches (no disambiguation-shaped token ever fails replay here), so it is the
empty enumeration. -/
def oracleModel : Oracle (List String) :=
  { init := []
    move := fun b t => if legalExt b t then some (b ++ [t]) else none
    movesList := fun _ => []
    fen := fun b => joinSpace b
    loadPgn := oracleLoadPgn }

/-- The no-break-space step as a character map. -/
def nbspMapF (c : Char) : Char := if c.val == 0xa0 then ' ' else c

/-- The carriage-return step as a character map. -/
def crMapF (c : Char) : Char := if c == '\r' then '\n' else c

/-- Characters able to start any of the ten castling patterns. -/
def castleTrigger (c : Char) : Bool := isZero c || isOLike c || isBigO c

/-- Characters on which a second normalization pass can act differently:
castling look-alikes and markup characters. -/
def c5Bad (c : Char) : Bool := castleTrigger c || c == backquote || c == '*'

/-- The composed normalization of spec §4.1/§8: input cleanup followed by
castling canonicalization (the first two stages of `parsePgnTextInput`). -/
def normalizeInput (s : String) : String := normalizeCastling (cleanPgnInput s)

/-- The characters of the four metadata constructs. -/
def metaChar (c : Char) : Bool :=
  c == '[' || c == ']' || c == '{' || c == '}' || c == ';' || c == '(' || c == ')'

/-- No two adjacent spaces. -/
def noAdjSpace : List Char → Bool
  | a :: b :: r => !(a == ' ' && b == ' ') && noAdjSpace (b :: r)
  | _ => true

/-- Whitespace already in collapsed form: every whitespace character is a
single interior space. -/
def wsCanonicalL (l : List Char) : Bool :=
  l.all (fun c => !isJsWs c || c == ' ') && noAdjSpace l &&
    !(l.head? == some ' ') && !(l.getLast? == some ' ')

/-- Fuel-bounded search: does the pattern match at any position? -/
def anyMatch (t : Try) : Nat → Option Char → List Char → Bool
  | 0, _, _ => false
  | _ + 1, _, [] => false
  | n + 1, prev, c :: cs => (t prev (c :: cs)).isSome || anyMatch t n (some c) cs

/-- Whether a pattern matches somewhere in the string. -/
def containsMatch (t : Try) (l : List Char) : Bool := anyMatch t l.length none l

/-- Whether the input contains any of the four metadata constructs removed by
the stripper (the claim-side occurrence predicate). -/
def hasMetaConstruct (s : String) : Bool :=
  containsMatch tryTag s.data || containsMatch tryBrace s.data ||
    containsMatch trySemi s.data || containsMatch tryParen s.data

/-- Replay of a token list against the oracle from a given position. -/
def replaysTo {β : Type} (O : Oracle β) : β → List String → Option β
  | b, [] => some b
  | b, t :: ts =>
    match O.move b t with
    | some b2 => replaysTo O b2 ts
    | none => none

/-- The replay outcome `validatePgnWithDetails` computes in its fallback
branch for a given argument. -/
def fallbackReplay {β : Type} (O : Oracle β) (s : String) : ReplayOut β :=
  replayLoop O O.init 1 (splitWs (stripPgnMetadata (normalizeCastling s)))

/-- An optional single-character grammar slot, satisfied when present. -/
def OptSat (g : Char → Bool) (o : Option Char) : Prop := ∀ c, o = some c → g c = true

/-- The characters contributed by an optional slot. -/
def optL : Option Char → List Char
  | some c => [c]
  | none => []

/-- The characters contributed by an optional promotion suffix. -/
def promoL : Option Char → List Char
  | some c => ['=', c]
  | none => []

/-- The language of the anchored move pattern, stated as the grammar
decomposition `[piece]?[file]?[rank]?x?[file][rank](=promotion)?`. -/
def CoreLang (piece file rank x promo : Char → Bool) (l : List Char) : Prop :=
  ∃ (p f r xx : Option Char) (d1 d2 : Char) (pr : Option Char),
    l = optL p ++ optL f ++ optL r ++ optL xx ++ [d1, d2] ++ promoL pr ∧
    OptSat piece p ∧ OptSat file f ∧ OptSat rank r ∧ OptSat x xx ∧
    file d1 = true ∧ rank d2 = true ∧ OptSat promo pr

/-- The sub-language after the optional prefix slots: destination square plus
optional promotion. -/
def DestLang (file rank promo : Char → Bool) (l : List Char) : Prop :=
  ∃ d1 d2 pr, l = [d1, d2] ++ promoL pr ∧ file d1 = true ∧ rank d2 = true ∧ OptSat promo pr

/-- The flat decompositions after each optional slot of the pattern. -/
def FlatX (file rank x promo : Char → Bool) (l : List Char) : Prop :=
  ∃ (xx : Option Char) (d1 d2 : Char) (pr : Option Char),
    l = optL xx ++ [d1, d2] ++ promoL pr ∧ OptSat x xx ∧
      file d1 = true ∧ rank d2 = true ∧ OptSat promo pr

/-- Flat decomposition including the optional rank slot. -/
def FlatR (file rank x promo : Char → Bool) (l : List Char) : Prop :=
  ∃ (rr xx : Option Char) (d1 d2 : Char) (pr : Option Char),
    l = optL rr ++ optL xx ++ [d1, d2] ++ promoL pr ∧ OptSat rank rr ∧ OptSat x xx ∧
      file d1 = true ∧ rank d2 = true ∧ OptSat promo pr

/-- Flat decomposition including the optional file slot. -/
def FlatF (file rank x promo : Char → Bool) (l : List Char) : Prop :=
  ∃ (ff rr xx : Option Char) (d1 d2 : Char) (pr : Option Char),
    l = optL ff ++ optL rr ++ optL xx ++ [d1, d2] ++ promoL pr ∧ OptSat file ff ∧
      OptSat rank rr ∧ OptSat x xx ∧ file d1 = true ∧ rank d2 = true ∧ OptSat promo pr

/-- Removal of trailing check/mate marks only (the claim-side reading). -/
def dropTrailingMarksCM (l : List Char) : List Char :=
  (l.reverse.dropWhile (fun c => c == '+' || c == '#')).reverse

/-- The claim as written: the two castling literals, or the move grammar with
case-insensitivity on the piece letter only and optional trailing check/mate
marks, on tokens of length at least 2. -/
def specGrammarMove (t : String) : Bool :=
  if t.length < 2 then false
  else if t = "O-O" || t = "O-O-O" then true
  else matchCore isPieceCI isFileCS isRank isXCS isPromoCS (dropTrailingMarksCM t.data)

/-- The corrected characterization of `isValidMove`: after deleting every
check/mate/annotation character anywhere in the token and normalizing
castling, the token is a castling literal, or contains a lower-case file-rank
pair and matches the move grammar case-insensitively in every letter
position. -/
def AmendedValidMove (t : String) : Prop :=
  2 ≤ t.length ∧
    (isCastleLit (normalizeCastling (jsTrim (removeMarks t))) = true ∨
      (hasFileRank (normalizeCastling (jsTrim (removeMarks t))) = true ∧
        CoreLang isPieceCI isFileCI isRank isXCI isPromoCI
          (normalizeCastling (jsTrim (removeMarks t))).data))

/-- All-whitespace (or empty) raw input. -/
def isWsOnly (s : String) : Bool := s.data.all isJsWs

/-- A matcher built with `tryHead g k` only fires on a head character
satisfying `g`; a scan over a string with no such character is the
identity, for any fuel. -/
theorem scanRepl_tryHead_id (g : Char → Bool)
    (k : Option Char → Char → List Char → Option MatchRes) :
    ∀ (n : Nat) (prev : Option Char) (l : List Char),
      (∀ c ∈ l, g c = false) → scanRepl (tryHead g k) n prev l = l := by
  intro n
  induction n with
  | zero => intro prev l _; rfl
  | succ n ih =>
    intro prev l h
    cases l with
    | nil => rfl
    | cons c cs =>
      have hc : g c = false := h c (List.mem_cons_self c cs)
      show (match tryHead g k prev (c :: cs) with
        | some (repl, lastc, rest) => repl ++ scanRepl (tryHead g k) n (some lastc) rest
        | none => c :: scanRepl (tryHead g k) n (some c) cs) = c :: cs
      rw [show tryHead g k prev (c :: cs) = none by simp [tryHead, hc]]
      exact congrArg (c :: ·) (ih (some c) cs fun d hd => h d (List.mem_cons_of_mem c hd))

/-- Global replace is the identity when no trigger character occurs. -/
theorem replaceG_tryHead_id (g : Char → Bool)
    (k : Option Char → Char → List Char → Option MatchRes) (l : List Char)
    (h : ∀ c ∈ l, g c = false) : replaceG (tryHead g k) l = l :=
  scanRepl_tryHead_id g k l.length none l h

/-- A single-character substitution scan with enough fuel is a `map`. -/
theorem scanRepl_charMap (g : Char → Bool) (b : Char) :
    ∀ (n : Nat) (prev : Option Char) (l : List Char), l.length ≤ n →
      scanRepl (tryHead g fun _ c cs => some ([b], c, cs)) n prev l =
        l.map (fun c => if g c then b else c) := by
  intro n
  induction n with
  | zero =>
    intro prev l hl
    have : l = [] := List.length_eq_zero.mp (Nat.le_zero.mp hl)
    subst this; rfl
  | succ n ih =>
    intro prev l hl
    cases l with
    | nil => rfl
    | cons c cs =>
      have hcs : cs.length ≤ n := by simpa [List.length_cons, Nat.succ_le_succ_iff] using hl
      show (match tryHead g (fun _ c cs => some ([b], c, cs)) prev (c :: cs) with
        | some (repl, lastc, rest) =>
          repl ++ scanRepl (tryHead g fun _ c cs => some ([b], c, cs)) n (some lastc) rest
        | none => c :: scanRepl (tryHead g fun _ c cs => some ([b], c, cs)) n (some c) cs) =
        (c :: cs).map (fun c => if g c then b else c)
      by_cases hc : g c = true
      · rw [show tryHead g (fun _ c cs => some ([b], c, cs)) prev (c :: cs) =
            some ([b], c, cs) by simp [tryHead, hc]]
        simp [hc, ih (some c) cs hcs]
      · have hc' : g c = false := Bool.eq_false_iff.mpr hc
        rw [show tryHead g (fun _ c cs => some ([b], c, cs)) prev (c :: cs) =
            none by simp [tryHead, hc']]
        have := ih (some c) cs hcs
        simp only [List.map_cons, if_neg hc]
        exact congrArg (c :: ·) this

/-- Head of a `dropWhile` result fails the predicate. -/
theorem dropWhile_cons_head {p : Char → Bool} :
    ∀ {l : List Char} {c : Char} {cs : List Char}, l.dropWhile p = c :: cs → p c = false := by
  intro l
  induction l with
  | nil => intro c cs h; cases h
  | cons a t ih =>
    intro c cs h
    by_cases ha : p a = true
    · rw [List.dropWhile_cons_of_pos ha] at h; exact ih h
    · rw [List.dropWhile_cons_of_neg (by simpa using ha)] at h
      cases h; simpa using ha

/-- `dropWhile` is the identity when the head fails the predicate. -/
theorem dropWhile_of_head {p : Char → Bool} {l : List Char}
    (h : ∀ c, l.head? = some c → p c = false) : l.dropWhile p = l := by
  cases l with
  | nil => rfl
  | cons c cs => exact List.dropWhile_cons_of_neg (by simpa using h c rfl)

/-- `trimList` is the identity on strings with no surrounding whitespace. -/
theorem trimList_noop {l : List Char}
    (h1 : ∀ c, l.head? = some c → isJsWs c = false)
    (h2 : ∀ c, l.getLast? = some c → isJsWs c = false) : trimList l = l := by
  unfold trimList
  rw [dropWhile_of_head h1,
    dropWhile_of_head (fun c hc => h2 c (by rwa [List.head?_reverse] at hc)),
    List.reverse_reverse]

/-- All characters of `trimList l` come from `l`. -/
theorem mem_trimList {c : Char} {l : List Char} (h : c ∈ trimList l) : c ∈ l := by
  unfold trimList at h
  rw [List.mem_reverse] at h
  have h2 := (List.dropWhile_sublist isJsWs).mem h
  rw [List.mem_reverse] at h2
  exact (List.dropWhile_sublist isJsWs).mem h2

/-- Trimming an all-whitespace string yields the empty string. -/
theorem trimList_eq_nil {l : List Char} (h : ∀ c ∈ l, isJsWs c = true) : trimList l = [] := by
  unfold trimList
  rw [List.dropWhile_eq_nil_iff.mpr h]
  rfl

/-- Trimming is idempotent. -/
theorem trimList_idem (l : List Char) : trimList (trimList l) = trimList l := by
  apply trimList_noop
  · intro c hc
    unfold trimList at hc
    rw [List.head?_reverse] at hc
    rcases hx : List.dropWhile isJsWs (l.dropWhile isJsWs).reverse with _ | ⟨a, as⟩
    · rw [hx] at hc; cases hc
    · rcases List.dropWhile_suffix (l := (l.dropWhile isJsWs).reverse) isJsWs with ⟨t, ht⟩
      rw [hx] at ht hc
      have hrev : (l.dropWhile isJsWs).reverse.getLast? = some c := by
        rw [← ht, List.getLast?_append, hc]; rfl
      rw [List.getLast?_reverse] at hrev
      rcases hz : l.dropWhile isJsWs with _ | ⟨z, zs⟩
      · rw [hz] at hrev; cases hrev
      · rw [hz] at hrev
        have : z = c := by simpa using hrev
        subst this
        exact dropWhile_cons_head hz
  · intro c hc
    unfold trimList at hc
    rw [List.getLast?_reverse] at hc
    rcases hx : List.dropWhile isJsWs (l.dropWhile isJsWs).reverse with _ | ⟨a, as⟩
    · rw [hx] at hc; cases hc
    · rw [hx] at hc
      have : a = c := by simpa using hc
      subst this
      exact dropWhile_cons_head hx

/-- `castleList` is the identity on strings without castling look-alike
characters. -/
theorem castleList_id {l : List Char} (h : ∀ c ∈ l, castleTrigger c = false) :
    castleList l = l := by
  have hz : ∀ c ∈ l, isZero c = false := by
    intro c hc; have := h c hc; simp [castleTrigger] at this; exact this.1.1
  have ho : ∀ c ∈ l, isOLike c = false := by
    intro c hc; have := h c hc; simp [castleTrigger] at this; exact this.1.2
  have hb : ∀ c ∈ l, isBigO c = false := by
    intro c hc; have := h c hc; simp [castleTrigger] at this; exact this.2
  simp only [castleList, tryCastleChain, tryZeros2, tryZeros3, tryLit00, tryLit000]
  rw [replaceG_tryHead_id _ _ _ hz, replaceG_tryHead_id _ _ _ hz,
    replaceG_tryHead_id _ _ _ ho, replaceG_tryHead_id _ _ _ ho,
    replaceG_tryHead_id _ _ _ hb, replaceG_tryHead_id _ _ _ hb,
    replaceG_tryHead_id _ _ _ hz, replaceG_tryHead_id _ _ _ hz,
    replaceG_tryHead_id _ _ _ hz, replaceG_tryHead_id _ _ _ hz]

/-- Under no-markup hypotheses, cleanup is the two character maps followed by
a trim. -/
theorem cleanList_eq {l : List Char}
    (hbq : ∀ c ∈ l, (c == backquote) = false)
    (hst : ∀ c ∈ l, (c == '*') = false) :
    cleanList l = trimList ((l.map nbspMapF).map crMapF) := by
  unfold cleanList
  rw [show replaceG tryFencePgn l = l from replaceG_tryHead_id _ _ _ hbq,
    show replaceG tryFence3 l = l from replaceG_tryHead_id _ _ _ hbq,
    show replaceG tryBold l = l from replaceG_tryHead_id _ _ _ hst,
    show replaceG tryNbsp l = l.map nbspMapF from
      scanRepl_charMap _ ' ' l.length none l (Nat.le_refl _),
    show replaceG tryCr (l.map nbspMapF) = (l.map nbspMapF).map crMapF from
      scanRepl_charMap _ '\n' (l.map nbspMapF).length none _ (Nat.le_refl _)]

/-- Mapping a function that fixes every element is the identity. -/
theorem map_self {l : List Char} {f : Char → Char} (h : ∀ c ∈ l, f c = c) : l.map f = l := by
  rw [List.map_congr_left h]; simp

/-- The two cleanup maps preserve the absence of problem characters. -/
theorem c5Bad_of_maps {l : List Char} (h : ∀ c ∈ l, c5Bad c = false) :
    ∀ c ∈ (l.map nbspMapF).map crMapF, c5Bad c = false := by
  intro c hc
  rcases List.mem_map.mp hc with ⟨d, hd, hdc⟩
  rcases List.mem_map.mp hd with ⟨e, he, hed⟩
  subst hdc; subst hed
  by_cases h1 : (e.val == 0xa0) = true
  · simp only [nbspMapF, if_pos h1]; decide
  · simp only [nbspMapF, if_neg h1]
    by_cases h2 : (e == '\r') = true
    · simp only [crMapF, if_pos h2]; decide
    · simp only [crMapF, if_neg h2]; exact h e he

/-- After the cleanup maps no character is a no-break space or a carriage
return. -/
theorem maps_no_nbsp_cr {l : List Char} :
    ∀ c ∈ (l.map nbspMapF).map crMapF, (c.val == 0xa0) = false ∧ (c == '\r') = false := by
  intro c hc
  rcases List.mem_map.mp hc with ⟨d, hd, hdc⟩
  rcases List.mem_map.mp hd with ⟨e, _, hed⟩
  subst hdc; subst hed
  by_cases h1 : (e.val == 0xa0) = true
  · simp only [nbspMapF, if_pos h1]
    by_cases h2 : ((' ' : Char) == '\r') = true
    · exact absurd h2 (by decide)
    · simp only [crMapF, if_neg h2]; decide
  · simp only [nbspMapF, if_neg h1]
    by_cases h2 : (e == '\r') = true
    · simp only [crMapF, if_pos h2]; decide
    · simp only [crMapF, if_neg h2]
      constructor
      · exact Bool.eq_false_iff.mpr h1
      · exact Bool.eq_false_iff.mpr h2

/-- C5 (amended): normalization (`cleanPgnInput` followed by
`normalizeCastling`) is idempotent on every input free of castling
look-alike characters (`0`, `o`, `O`, Cyrillic О/о) and markup characters
(backquote, asterisk); on such inputs a second pass finds nothing new to
rewrite.  In general idempotence fails (see the counterexample). -/
theorem c5_normalize_idempotent_restricted (s : String) (h : ∀ c ∈ s.data, c5Bad c = false) :
    normalizeInput (normalizeInput s) = normalizeInput s := by
  by_cases hs : s = ""
  · subst hs; rfl
  · have hbq : ∀ c ∈ s.data, (c == backquote) = false := by
      intro c hc; have := h c hc; simp [c5Bad] at this
      exact beq_eq_false_iff_ne.mpr this.1.2
    have hst : ∀ c ∈ s.data, (c == '*') = false := by
      intro c hc; have := h c hc; simp [c5Bad] at this
      exact beq_eq_false_iff_ne.mpr this.2
    have hclean : cleanPgnInput s = ⟨trimList ((s.data.map nbspMapF).map crMapF)⟩ := by
      unfold cleanPgnInput
      rw [if_neg hs]
      exact congrArg String.mk (cleanList_eq hbq hst)
    set T := trimList ((s.data.map nbspMapF).map crMapF) with hT
    have hTchars : ∀ c ∈ T, c5Bad c = false := fun c hc =>
      c5Bad_of_maps h c (mem_trimList hc)
    have hTct : ∀ c ∈ T, castleTrigger c = false := by
      intro c hc; have := hTchars c hc; simp [c5Bad] at this; exact this.1.1
    have hcastle : normalizeCastling ⟨T⟩ = ⟨T⟩ := congrArg String.mk (castleList_id hTct)
    have hnorm : normalizeInput s = ⟨T⟩ := by
      unfold normalizeInput; rw [hclean, hcastle]
    rw [hnorm]
    by_cases hTe : (⟨T⟩ : String) = ""
    · rw [hTe]; rfl
    · have hTbq : ∀ c ∈ T, (c == backquote) = false := by
        intro c hc; have := hTchars c hc; simp [c5Bad] at this
        exact beq_eq_false_iff_ne.mpr this.1.2
      have hTst : ∀ c ∈ T, (c == '*') = false := by
        intro c hc; have := hTchars c hc; simp [c5Bad] at this
        exact beq_eq_false_iff_ne.mpr this.2
      have hTmaps : (T.map nbspMapF).map crMapF = T := by
        have h1 : T.map nbspMapF = T := map_self (by
          intro c hc
          have := maps_no_nbsp_cr c (mem_trimList (hT ▸ hc))
          simp only [nbspMapF, if_neg (Bool.eq_false_iff.mp this.1)])
        rw [h1]
        exact map_self (by
          intro c hc
          have := maps_no_nbsp_cr c (mem_trimList (hT ▸ hc))
          simp only [crMapF, if_neg (Bool.eq_false_iff.mp this.2)])
      have htrimT : trimList T = T := by rw [hT]; exact trimList_idem _
      unfold normalizeInput
      have hclean2 : cleanPgnInput ⟨T⟩ = ⟨T⟩ := by
        unfold cleanPgnInput
        rw [if_neg hTe]
        refine congrArg String.mk ?_
        show cleanList T = T
        rw [cleanList_eq hTbq hTst, hTmaps, htrimT]
      rw [hclean2, hcastle]

/-- C5 (counterexample): normalization is not idempotent as claimed.  On
`"O - 00"` the first pass turns the OCR spelling `00` into `O-O`, creating
the spaced fragment `O - O-O`; the second pass then collapses it to
`O-O-O`. -/
theorem c5_normalize_not_idempotent :
    normalizeInput (normalizeInput "O - 00") ≠ normalizeInput "O - 00" ∧
      normalizeInput "O - 00" = "O - O-O" ∧
      normalizeInput (normalizeInput "O - 00") = "O-O-O" := by decide

/-- C5 (witness): the restricted idempotence theorem applied to a concrete
input satisfying its hypothesis. -/
theorem c5_normalize_idempotent_witness :
    (∀ c ∈ ("1. e4 e5" : String).data, c5Bad c = false) ∧
      normalizeInput (normalizeInput "1. e4 e5") = normalizeInput "1. e4 e5" :=
  ⟨by decide, c5_normalize_idempotent_restricted "1. e4 e5" (by decide)⟩

/-- C6: castling canonicalization maps `"0-0"`, `"o-o"` and `"O - O"` to
exactly `"O-O"` and `"0-0-0"` to exactly `"O-O-O"`; homogeneous digit-zero,
lower-case and Cyrillic look-alike spellings, with or without internal
spacing, all collapse to the two canonical tokens, both under
`normalizeCastling` alone and under the composed normalization. -/
theorem c6_castling_canonicalization :
    normalizeCastling "0-0" = "O-O" ∧
      normalizeCastling "o-o" = "O-O" ∧
      normalizeCastling "O - O" = "O-O" ∧
      normalizeCastling "0-0-0" = "O-O-O" ∧
      normalizeCastling "o-o-o" = "O-O-O" ∧
      normalizeCastling "О-О" = "O-O" ∧
      normalizeCastling "о-о-о" = "O-O-O" ∧
      normalizeCastling "0 - 0" = "O-O" ∧
      normalizeCastling "0 - 0 - 0" = "O-O-O" ∧
      normalizeCastling "O - O - O" = "O-O-O" ∧
      normalizeCastling "O-O" = "O-O" ∧
      normalizeCastling "O-O-O" = "O-O-O" ∧
      normalizeInput "0-0" = "O-O" ∧
      normalizeInput "o-o" = "O-O" ∧
      normalizeInput "O - O" = "O-O" ∧
      normalizeInput "0-0-0" = "O-O-O" := by decide

/-- The tail of an adjacency-free list is adjacency-free. -/
theorem noAdjSpace_tail {c : Char} {cs : List Char} (h : noAdjSpace (c :: cs) = true) :
    noAdjSpace cs = true := by
  cases cs with
  | nil => rfl
  | cons d ds =>
    unfold noAdjSpace at h
    exact ((Bool.and_eq_true _ _).mp h).2

/-- The whitespace-collapse scan is the identity on strings whose whitespace
is already single interior spaces. -/
theorem scanRepl_wsRun_id :
    ∀ (n : Nat) (prev : Option Char) (l : List Char),
      (∀ c ∈ l, isJsWs c = true → c = ' ') → noAdjSpace l = true →
      scanRepl tryWsRun n prev l = l := by
  intro n
  induction n with
  | zero => intro _ _ _ _; rfl
  | succ n ih =>
    intro prev l hws hadj
    cases l with
    | nil => rfl
    | cons c cs =>
      show (match tryWsRun prev (c :: cs) with
        | some (repl, lastc, rest) => repl ++ scanRepl tryWsRun n (some lastc) rest
        | none => c :: scanRepl tryWsRun n (some c) cs) = c :: cs
      have hwst : ∀ d ∈ cs, isJsWs d = true → d = ' ' :=
        fun d hd => hws d (List.mem_cons_of_mem c hd)
      have hadjt : noAdjSpace cs = true := noAdjSpace_tail hadj
      by_cases hc : isJsWs c = true
      · have hcsp : c = ' ' := hws c (List.mem_cons_self c cs) hc
        have hcs0 : cs.takeWhile isJsWs = [] ∧ cs.dropWhile isJsWs = cs := by
          cases cs with
          | nil => exact ⟨rfl, rfl⟩
          | cons d ds =>
            have hd : isJsWs d = false := by
              by_cases hdw : isJsWs d = true
              · have hdsp : d = ' ' := hws d (by simp) hdw
                subst hdsp; subst hcsp
                unfold noAdjSpace at hadj
                simp at hadj
              · exact Bool.eq_false_iff.mpr hdw
            constructor
            · simp [List.takeWhile_cons, hd]
            · simp [List.dropWhile_cons, hd]
        rw [show tryWsRun prev (c :: cs) = some ([' '], c, cs) by
          simp [tryWsRun, tryHead, hc, hcs0.1, hcs0.2]]
        subst hcsp
        exact congrArg (' ' :: ·) (ih (some ' ') cs hwst hadjt)
      · rw [show tryWsRun prev (c :: cs) = none by
          simp [tryWsRun, tryHead, Bool.eq_false_iff.mpr hc]]
        exact congrArg (c :: ·) (ih (some c) cs hwst hadjt)

/-- The variation-removal loop is the identity when one pass is. -/
theorem parenFix_id {l : List Char} (hpar : replaceG tryParen l = l) : parenFix l = l := by
  show parenFixAux (l.length + 1) l = l
  unfold parenFixAux
  simp [hpar]

/-- C7 (amended): the metadata stripper is total, and it is a no-op exactly
on inputs that both contain none of the construct characters
(`[ ] { } ; ( )`) and already have canonical whitespace (single interior
spaces only); in general the final whitespace collapse and trim make it
change construct-free inputs (see the counterexample). -/
theorem c7_strip_noop_restricted (s : String)
    (hm : ∀ c ∈ s.data, metaChar c = false)
    (hw : wsCanonicalL s.data = true) : stripPgnMetadata s = s := by
  by_cases hs : s = ""
  · subst hs; rfl
  · unfold stripPgnMetadata
    rw [if_neg hs]
    refine String.ext ?_
    show stripList s.data = s.data
    have h1 := (Bool.and_eq_true _ _).mp hw
    have h2 := (Bool.and_eq_true _ _).mp h1.1
    have h3 := (Bool.and_eq_true _ _).mp h2.1
    have hall : ∀ c ∈ s.data, isJsWs c = true → c = ' ' := by
      intro c hc hcw
      have := List.all_eq_true.mp h3.1 c hc
      rw [hcw] at this
      simpa using this
    have hadj : noAdjSpace s.data = true := h3.2
    have hhd : ∀ c, s.data.head? = some c → isJsWs c = false := by
      intro c hc
      by_cases hcw : isJsWs c = true
      · have := hall c (by
          cases hl : s.data with
          | nil => rw [hl] at hc; cases hc
          | cons a t =>
            rw [hl] at hc
            have : a = c := by simpa using hc
            subst this
            simp) hcw
        subst this
        rw [hc] at h2
        simp at h2
      · exact Bool.eq_false_iff.mpr hcw
    have hlast : ∀ c, s.data.getLast? = some c → isJsWs c = false := by
      intro c hc
      by_cases hcw : isJsWs c = true
      · have hcm : c ∈ s.data := List.mem_of_mem_getLast? hc
        have := hall c hcm hcw
        subst this
        rw [hc] at h1
        simp at h1
      · exact Bool.eq_false_iff.mpr hcw
    have htag : ∀ c ∈ s.data, ((fun c => c == '[') c) = false := by
      intro c hc; have := hm c hc; simp [metaChar] at this
      exact beq_eq_false_iff_ne.mpr this.1.1.1.1.1.1
    have hbrc : ∀ c ∈ s.data, ((fun c => c == '{') c) = false := by
      intro c hc; have := hm c hc; simp [metaChar] at this
      exact beq_eq_false_iff_ne.mpr this.1.1.1.1.2
    have hsem : ∀ c ∈ s.data, ((fun c => c == ';') c) = false := by
      intro c hc; have := hm c hc; simp [metaChar] at this
      exact beq_eq_false_iff_ne.mpr this.1.1.2
    have hpar : ∀ c ∈ s.data, ((fun c => c == '(') c) = false := by
      intro c hc; have := hm c hc; simp [metaChar] at this
      exact beq_eq_false_iff_ne.mpr this.1.2
    unfold stripList
    rw [show replaceG tryTag s.data = s.data from replaceG_tryHead_id _ _ _ htag,
      show replaceG tryBrace s.data = s.data from replaceG_tryHead_id _ _ _ hbrc,
      show replaceG trySemi s.data = s.data from replaceG_tryHead_id _ _ _ hsem,
      parenFix_id (show replaceG tryParen s.data = s.data from replaceG_tryHead_id _ _ _ hpar),
      show replaceG tryWsRun s.data = s.data from
        scanRepl_wsRun_id s.data.length none s.data hall hadj,
      trimList_noop hhd hlast]

/-- C7 (counterexample): on an input containing none of the four stripped
constructs the stripper is not a no-op — it still collapses the double space
of `"a  b"`. -/
theorem c7_strip_not_noop :
    hasMetaConstruct "a  b" = false ∧ stripPgnMetadata "a  b" ≠ "a  b" ∧
      stripPgnMetadata "a  b" = "a b" := by decide

/-- C7 (witness): the restricted no-op theorem applied to a concrete
construct-free, whitespace-canonical input. -/
theorem c7_strip_noop_witness :
    (∀ c ∈ ("1. e4 e5" : String).data, metaChar c = false) ∧
      wsCanonicalL ("1. e4 e5" : String).data = true ∧
      stripPgnMetadata "1. e4 e5" = "1. e4 e5" :=
  ⟨by decide, by decide, c7_strip_noop_restricted "1. e4 e5" (by decide) (by decide)⟩

/-- A whitespace character is never the given non-whitespace character. -/
theorem ws_imp_ne (a : Char) (ha : isJsWs a = false) :
    ∀ c, isJsWs c = true → (c == a) = false := by
  intro c h
  by_cases hq : (c == a) = true
  · have : c = a := eq_of_beq hq
    subst this
    rw [h] at ha
    cases ha
  · exact Bool.eq_false_iff.mpr hq

/-- Cleanup of an all-whitespace string yields the empty string. -/
theorem cleanList_wsOnly {l : List Char} (h : ∀ c ∈ l, isJsWs c = true) : cleanList l = [] := by
  have hbq : ∀ c ∈ l, (c == backquote) = false :=
    fun c hc => ws_imp_ne backquote (by decide) c (h c hc)
  have hst : ∀ c ∈ l, (c == '*') = false :=
    fun c hc => ws_imp_ne '*' (by decide) c (h c hc)
  rw [cleanList_eq hbq hst]
  apply trimList_eq_nil
  intro c hc
  rcases List.mem_map.mp hc with ⟨d, hd, hdc⟩
  rcases List.mem_map.mp hd with ⟨e, he, hed⟩
  subst hdc; subst hed
  have hew := h e he
  by_cases h1 : (e.val == 0xa0) = true
  · simp only [nbspMapF, if_pos h1]; decide
  · simp only [nbspMapF, if_neg h1]
    by_cases h2 : (e == '\r') = true
    · simp only [crMapF, if_pos h2]; decide
    · simp only [crMapF, if_neg h2]; exact hew

/-- C8: every empty or whitespace-only raw input is rejected immediately with
the malformed-input message; the result is the same for every oracle, so no
replay is attempted, and the embedding is a total function, so no exception
escapes. -/
theorem c8_ws_only_rejected {β : Type} (O : Oracle β) (raw : String)
    (h : isWsOnly raw = true) :
    parsePgnTextInput O raw =
      { success := false, error := some "Please paste a valid PGN string." } := by
  have hall : ∀ c ∈ raw.data, isJsWs c = true := List.all_eq_true.mp h
  have hclean : cleanPgnInput raw = "" := by
    by_cases hr : raw = ""
    · subst hr; rfl
    · unfold cleanPgnInput
      rw [if_neg hr, cleanList_wsOnly hall]
  unfold parsePgnTextInput
  rw [hclean]
  rfl

/-- C8 (witness): the rejection theorem applied to a concrete whitespace-only
input and the concrete oracle. -/
theorem c8_ws_only_rejected_witness :
    isWsOnly "  \t\n " = true ∧
      parsePgnTextInput oracleModel "  \t\n " =
        { success := false, error := some "Please paste a valid PGN string." } :=
  ⟨by decide, c8_ws_only_rejected oracleModel "  \t\n " (by decide)⟩

/-- Left-biased choice on a present first component. -/
theorem optOr_some {α : Type} {a : α} {x : Option α} : (some a).or x = some a := rfl

/-- Left-biased choice on an absent first component. -/
theorem optOr_none {α : Type} {x : Option α} : (none : Option α).or x = x := rfl

/-- A first-shape disambiguation result is an enumerated legal move. -/
theorem disambigFind1_mem {β : Type} {O : Oracle β} {mv : String} {b : β} {d : String}
    (h : disambigFind1 O mv b = some d) : d ∈ O.movesList b := by
  unfold disambigFind1 at h
  by_cases hs : disambigShape1 mv.data = true
  · rw [if_pos hs] at h
    simpa using List.find?_some h
  · rw [if_neg hs] at h; cases h

/-- A second-shape disambiguation result is an enumerated legal move. -/
theorem disambigFind2_mem {β : Type} {O : Oracle β} {mv : String} {b : β} {d : String}
    (h : disambigFind2 O mv b = some d) : d ∈ O.movesList b := by
  unfold disambigFind2 at h
  by_cases hs : disambigShape2 mv.data = true
  · rw [if_pos hs] at h
    simpa using List.find?_some h
  · rw [if_neg hs] at h; cases h

/-- A substitution result was accepted by the oracle on the copied
position. -/
theorem substSearch_applicable {β : Type} {O : Oracle β} {mv : String} {b : β} {c : String}
    (h : substSearch O mv b = some c) : O.move b c ≠ none := by
  unfold substSearch at h
  rcases List.exists_of_findSome?_eq_some h with ⟨f, _, hfc⟩
  by_cases hne : f mv ≠ mv
  · rw [if_pos hne] at hfc
    cases hm : O.move b (f mv) with
    | some b2 =>
      rw [hm] at hfc
      have hfcv : f mv = c := by injection hfc
      rw [← hfcv, hm]
      intro hcon
      cases hcon
    | none => rw [hm] at hfc; cases hfc
  · rw [if_neg hne] at hfc; cases hfc

/-- A token returned by the corrector is applicable: substitution candidates
were tested on a copy of the same position, and disambiguation candidates
come from the oracle's own legal-move enumeration. -/
theorem tryOcrCorrections_applicable {β : Type} {O : Oracle β}
    (Hmoves : ∀ b t, t ∈ O.movesList b → O.move b t ≠ none)
    {mv : String} {b : β} {c : String} (h : tryOcrCorrections O mv b = some c) :
    O.move b c ≠ none := by
  unfold tryOcrCorrections at h
  cases hd1 : disambigFind1 O mv b with
  | some d =>
    rw [hd1, optOr_some] at h
    have hdc : d = c := by injection h
    subst hdc
    exact Hmoves b d (disambigFind1_mem hd1)
  | none =>
    rw [hd1, optOr_none] at h
    cases hd2 : disambigFind2 O mv b with
    | some d =>
      rw [hd2, optOr_some] at h
      have hdc : d = c := by injection h
      subst hdc
      exact Hmoves b d (disambigFind2_mem hd2)
    | none =>
      rw [hd2, optOr_none] at h
      exact substSearch_applicable h

set_option maxHeartbeats 1600000 in
/-- One-step unfolding of the replay loop on a cons cell. -/
theorem replayLoop_cons {β : Type} (O : Oracle β) (b : β) (n : Nat) (t : String)
    (ts : List String) :
    replayLoop O b n (t :: ts) =
      if jsTrim t = "" then replayLoop O b n ts
      else if isNumDotTok (jsTrim t).data then
        replayLoop O b (parseIntTok (jsTrim t).data) ts
      else if strippedTok t = "" then replayLoop O b n ts
      else
        match O.move b (normTok t) with
        | some b2 =>
          ⟨normTok t :: (replayLoop O b2 n ts).accepted, (replayLoop O b2 n ts).board,
            (replayLoop O b2 n ts).failedAt⟩
        | none =>
          match tryOcrCorrections O (normTok t) b with
          | some c =>
            ⟨c :: (replayLoop O ((O.move b c).getD b) n ts).accepted,
              (replayLoop O ((O.move b c).getD b) n ts).board,
              (replayLoop O ((O.move b c).getD b) n ts).failedAt⟩
          | none => ⟨[], b, some (jsTrim t ++ " (move " ++ toString n ++ ")")⟩ := by
  conv => lhs; rw [replayLoop]

/-- Stepping the replay of a token list through an accepted move. -/
theorem replaysTo_cons_some {β : Type} {O : Oracle β} {b b2 : β} {t : String}
    (ts : List String) (hm : O.move b t = some b2) :
    replaysTo O b (t :: ts) = replaysTo O b2 ts := by
  show (match O.move b t with
    | some b2 => replaysTo O b2 ts
    | none => none) = replaysTo O b2 ts
  rw [hm]

/-- Replay soundness of the token loop: the accepted (possibly corrected)
token list replays, move by move through the oracle, from the loop's start
position to its final board. -/
theorem replayLoop_sound {β : Type} {O : Oracle β}
    (Hmoves : ∀ b t, t ∈ O.movesList b → O.move b t ≠ none) :
    ∀ (ts : List String) (b : β) (n : Nat),
      replaysTo O b (replayLoop O b n ts).accepted = some (replayLoop O b n ts).board := by
  intro ts
  induction ts with
  | nil => intro b n; rfl
  | cons t ts ih =>
    intro b n
    rw [replayLoop_cons]
    by_cases h1 : jsTrim t = ""
    · rw [if_pos h1]; exact ih b n
    · rw [if_neg h1]
      by_cases h2 : isNumDotTok (jsTrim t).data = true
      · rw [if_pos h2]; exact ih b (parseIntTok (jsTrim t).data)
      · rw [if_neg h2]
        by_cases h3 : strippedTok t = ""
        · rw [if_pos h3]; exact ih b n
        · rw [if_neg h3]
          cases hm : O.move b (normTok t) with
          | some b2 =>
            show replaysTo O b (normTok t :: (replayLoop O b2 n ts).accepted) =
              some (replayLoop O b2 n ts).board
            rw [replaysTo_cons_some _ hm]
            exact ih b2 n
          | none =>
            cases hc : tryOcrCorrections O (normTok t) b with
            | some c =>
              have happ := tryOcrCorrections_applicable Hmoves hc
              obtain ⟨b2, hb2⟩ : ∃ b2, O.move b c = some b2 := by
                cases hmv : O.move b c with
                | some x => exact ⟨x, rfl⟩
                | none => exact absurd hmv happ
              have hgd : (O.move b c).getD b = b2 := by rw [hb2]; rfl
              show replaysTo O b
                  (c :: (replayLoop O ((O.move b c).getD b) n ts).accepted) =
                some (replayLoop O ((O.move b c).getD b) n ts).board
              rw [hgd, replaysTo_cons_some _ hb2]
              exact ih b2 n
            | none => rfl

/-- The fallback branch of the validator, expressed through the replay
outcome it computes. -/
theorem validateFallback_eq {β : Type} (O : Oracle β) (s : String) :
    validateFallback O s =
      if (replayLoop O O.init 1 (splitWs s)).accepted = [] then
        { valid := false,
          failedAt := some ((replayLoop O O.init 1 (splitWs s)).failedAt.getD "start"),
          moveCount := 0 }
      else
        { valid := false,
          failedAt := some ((replayLoop O O.init 1 (splitWs s)).failedAt.getD "end of game"),
          reconstructed := some (formatAccepted (replayLoop O O.init 1 (splitWs s)).accepted),
          moveCount := ((replayLoop O O.init 1 (splitWs s)).accepted.length + 1) / 2 } := by
  unfold validateFallback
  by_cases h : (replayLoop O O.init 1 (splitWs s)).accepted = []
  · rw [if_neg (by simpa using h), if_pos h]
  · rw [if_pos (by simpa using h), if_neg h]

/-- The validator reduces to its fallback branch when the whole-game parse
fails. -/
theorem validate_eq_fallback {β : Type} (O : Oracle β) (s : String)
    (hload : O.loadPgn (stripPgnMetadata (normalizeCastling s)) = none) :
    validatePgnWithDetails O s =
      validateFallback O (stripPgnMetadata (normalizeCastling s)) := by
  show (match O.loadPgn (stripPgnMetadata (normalizeCastling s)) with
    | some h =>
      if (h.length + 1) / 2 = 0 then
        validateFallback O (stripPgnMetadata (normalizeCastling s))
      else { valid := true, moveCount := (h.length + 1) / 2 }
    | none => validateFallback O (stripPgnMetadata (normalizeCastling s))) =
    validateFallback O (stripPgnMetadata (normalizeCastling s))
  rw [hload]

/-- C2 (amended): when the oracle's whole-game parse fails and the pipeline
replays token by token, the returned record is built from exactly the
accepted prefix: the reconstruction lists exactly the accepted tokens (no
token beyond the failure point), the reported count is the number of accepted
full-move pairs, i.e. the ceiling of half the accepted ply count k — not k
itself — and the accepted tokens replay through the oracle in order from the
initial position; the recorded failure is the offending raw token with the
current full-move number, e.g. `"Zz9 (move 3)"` (not a ply index). -/
theorem c2_replay_halt_prefix {β : Type} (O : Oracle β)
    (Hmoves : ∀ b t, t ∈ O.movesList b → O.move b t ≠ none) (s : String)
    (hload : O.loadPgn (stripPgnMetadata (normalizeCastling s)) = none) :
    (validatePgnWithDetails O s).valid = false ∧
      (validatePgnWithDetails O s).moveCount =
        ((fallbackReplay O s).accepted.length + 1) / 2 ∧
      (validatePgnWithDetails O s).reconstructed =
        (if (fallbackReplay O s).accepted = [] then none
          else some (formatAccepted (fallbackReplay O s).accepted)) ∧
      (validatePgnWithDetails O s).failedAt =
        some ((fallbackReplay O s).failedAt.getD
          (if (fallbackReplay O s).accepted = [] then "start" else "end of game")) ∧
      replaysTo O O.init (fallbackReplay O s).accepted = some (fallbackReplay O s).board := by
  have hval := validate_eq_fallback O s hload
  rw [validateFallback_eq] at hval
  refine ⟨?_, ?_, ?_, ?_, replayLoop_sound Hmoves _ _ _⟩
  · rw [hval]; split <;> rfl
  · rw [hval]
    show _ = ((replayLoop O O.init 1
      (splitWs (stripPgnMetadata (normalizeCastling s)))).accepted.length + 1) / 2
    split
    · rename_i h
      rw [h]
      rfl
    · rfl
  · rw [hval]
    show _ = (if (replayLoop O O.init 1
        (splitWs (stripPgnMetadata (normalizeCastling s)))).accepted = [] then none
      else some (formatAccepted (replayLoop O O.init 1
        (splitWs (stripPgnMetadata (normalizeCastling s)))).accepted))
    split <;> rfl
  · rw [hval]
    show _ = some ((replayLoop O O.init 1
        (splitWs (stripPgnMetadata (normalizeCastling s)))).failedAt.getD
      (if (replayLoop O O.init 1
          (splitWs (stripPgnMetadata (normalizeCastling s)))).accepted = []
        then "start" else "end of game"))
    split <;> rfl

/-- An invalid validation result comes from the fallback branch. -/
theorem validate_not_valid_eq {β : Type} (O : Oracle β) (s : String)
    (hv : (validatePgnWithDetails O s).valid = false) :
    validatePgnWithDetails O s =
      validateFallback O (stripPgnMetadata (normalizeCastling s)) := by
  have hshow : validatePgnWithDetails O s =
      (match O.loadPgn (stripPgnMetadata (normalizeCastling s)) with
        | some h =>
          if (h.length + 1) / 2 = 0 then
            validateFallback O (stripPgnMetadata (normalizeCastling s))
          else
            ({ valid := true, moveCount := (h.length + 1) / 2 } : ValidationResult)
        | none => validateFallback O (stripPgnMetadata (normalizeCastling s))) := rfl
  rw [hshow] at hv ⊢
  cases hl : O.loadPgn (stripPgnMetadata (normalizeCastling s)) with
  | some h =>
    rw [hl] at hv
    replace hv : (if (h.length + 1) / 2 = 0 then
        validateFallback O (stripPgnMetadata (normalizeCastling s))
      else ({ valid := true, moveCount := (h.length + 1) / 2 } : ValidationResult)).valid =
        false := hv
    show (if (h.length + 1) / 2 = 0 then
        validateFallback O (stripPgnMetadata (normalizeCastling s))
      else ({ valid := true, moveCount := (h.length + 1) / 2 } : ValidationResult)) =
      validateFallback O (stripPgnMetadata (normalizeCastling s))
    by_cases hmc : (h.length + 1) / 2 = 0
    · rw [if_pos hmc]
    · rw [if_neg hmc] at hv
      cases hv
  | none => rfl

/-- C1 (amended/corrected): a success with `isPartial` set reconstructs its
notation strictly from the accepted (possibly corrected) tokens, reports
their full-move pair count, and those tokens replay through the oracle from
the initial position; a success through the direct whole-game parse formats
its notation from the oracle's accepted history; but a success through the
validation path returns the normalized/stripped input text itself, which is
derived from the raw text and need not replay (see the counterexample). -/
theorem c1_partial_reconstruction {β : Type} (O : Oracle β)
    (Hmoves : ∀ b t, t ∈ O.movesList b → O.move b t ≠ none) (raw : String)
    (hpart : (parsePgnTextInput O raw).isPartial = some true) :
    ∃ acc b2, acc ≠ [] ∧
      (parsePgnTextInput O raw).pgn = some (formatAccepted acc) ∧
      (parsePgnTextInput O raw).movesFound = some ((acc.length + 1) / 2) ∧
      replaysTo O O.init acc = some b2 := by
  by_cases hcl : cleanPgnInput raw = ""
  · have hres : parsePgnTextInput O raw =
        { success := false, error := some "Please paste a valid PGN string." } := by
      unfold parsePgnTextInput
      rw [if_pos hcl]
    rw [hres] at hpart
    simp at hpart
  · cases hfs : firstLoad O raw with
    | some h =>
      have hres : parsePgnTextInput O raw =
          { success := true, pgn := some (formatHistoryAsPgn h),
            movesFound := some ((h.length + 1) / 2) } := by
        unfold parsePgnTextInput
        rw [if_neg hcl, hfs]
      rw [hres] at hpart
      simp at hpart
    | none =>
      have hres0 : parsePgnTextInput O raw =
          (if (validatePgnWithDetails O (validateArg raw)).valid = true then
            { success := true, pgn := some (validateArg raw),
              movesFound := some (validatePgnWithDetails O (validateArg raw)).moveCount }
          else if optTruthy (validatePgnWithDetails O (validateArg raw)).reconstructed = true ∧
              0 < (validatePgnWithDetails O (validateArg raw)).moveCount then
            { success := true,
              pgn := (validatePgnWithDetails O (validateArg raw)).reconstructed,
              movesFound := some (validatePgnWithDetails O (validateArg raw)).moveCount,
              isPartial := some true }
          else
            { success := false,
              error := some (match (validatePgnWithDetails O (validateArg raw)).failedAt with
                | some f => "Unable to parse PGN. Problem detected near " ++ f ++ "."
                | none =>
                  "Unable to parse PGN. Please verify the notation and try again.") }) := by
        unfold parsePgnTextInput
        rw [if_neg hcl, hfs]
      by_cases hv : (validatePgnWithDetails O (validateArg raw)).valid = true
      · rw [if_pos hv] at hres0
        rw [hres0] at hpart
        simp at hpart
      · rw [if_neg hv] at hres0
        by_cases htr : optTruthy
            (validatePgnWithDetails O (validateArg raw)).reconstructed = true ∧
            0 < (validatePgnWithDetails O (validateArg raw)).moveCount
        · rw [if_pos htr] at hres0
          rw [hres0]
          have hfb := validate_not_valid_eq O (validateArg raw)
            (Bool.eq_false_iff.mpr hv)
          rw [validateFallback_eq] at hfb
          by_cases hacc : (replayLoop O O.init 1 (splitWs (stripPgnMetadata
              (normalizeCastling (validateArg raw))))).accepted = []
          · exfalso
            have h1 := htr.1
            rw [hfb, if_pos hacc] at h1
            simp [optTruthy] at h1
          · refine ⟨(replayLoop O O.init 1 (splitWs (stripPgnMetadata
                (normalizeCastling (validateArg raw))))).accepted,
              (replayLoop O O.init 1 (splitWs (stripPgnMetadata
                (normalizeCastling (validateArg raw))))).board,
              hacc, ?_, ?_, replayLoop_sound Hmoves _ _ _⟩
            · show (validatePgnWithDetails O (validateArg raw)).reconstructed = _
              rw [hfb, if_neg hacc]
            · show some (validatePgnWithDetails O (validateArg raw)).moveCount = _
              rw [hfb, if_neg hacc]
        · rw [if_neg htr] at hres0
          rw [hres0] at hpart
          simp at hpart

/-- C1 (witness): the partial-reconstruction theorem applied at the concrete
partial-recovery input, hypotheses discharged concretely. -/
theorem c1_partial_reconstruction_witness :
    (parsePgnTextInput oracleModel "1. e4 e5 2. Nf3 Nc6 3. Zz9 a6").isPartial =
        some true ∧
      ∃ acc b2, acc ≠ [] ∧
        (parsePgnTextInput oracleModel "1. e4 e5 2. Nf3 Nc6 3. Zz9 a6").pgn =
          some (formatAccepted acc) ∧
        (parsePgnTextInput oracleModel "1. e4 e5 2. Nf3 Nc6 3. Zz9 a6").movesFound =
          some ((acc.length + 1) / 2) ∧
        replaysTo oracleModel oracleModel.init acc = some b2 :=
  ⟨by decide, c1_partial_reconstruction oracleModel
    (fun b t ht => absurd ht (List.not_mem_nil t)) "1. e4 e5 2. Nf3 Nc6 3. Zz9 a6"
    (by decide)⟩

/-- C1 (counterexample): an input whose castling fragment is re-exposed by
metadata stripping succeeds through the validation path with `pgn` taken
from the stripped input text — still containing the raw fragment `0 - 0`,
which is not an accepted move token — and token replay of that returned
notation halts after 6 plies, refuting both "never from the original raw
text" and "replaying that string succeeds with the same accepted count". -/
theorem c1_raw_text_counterexample :
    parsePgnTextInput oracleModel "1. e4 e5 2. Nf3 Nc6 3. Bc4 Bc5 4. 0 {x} - 0" =
      { success := true, pgn := some "1. e4 e5 2. Nf3 Nc6 3. Bc4 Bc5 4. 0 - 0",
        movesFound := some 4 } ∧
      (replayLoop oracleModel oracleModel.init 1
        (splitWs "1. e4 e5 2. Nf3 Nc6 3. Bc4 Bc5 4. 0 - 0")).failedAt =
        some "0 (move 4)" ∧
      (replayLoop oracleModel oracleModel.init 1
        (splitWs "1. e4 e5 2. Nf3 Nc6 3. Bc4 Bc5 4. 0 - 0")).accepted =
        ["e4", "e5", "Nf3", "Nc6", "Bc4", "Bc5"] := by decide

/-- C2 (witness): the amended prefix theorem applied at the spec's concrete
partial-recovery scenario, hypotheses discharged concretely. -/
theorem c2_replay_halt_prefix_witness :
    (validatePgnWithDetails oracleModel "1. e4 e5 2. Nf3 Nc6 3. Zz9 a6").valid = false ∧
      (validatePgnWithDetails oracleModel "1. e4 e5 2. Nf3 Nc6 3. Zz9 a6").moveCount = 2 ∧
      (validatePgnWithDetails oracleModel "1. e4 e5 2. Nf3 Nc6 3. Zz9 a6").reconstructed =
        some "1. e4 e5 2. Nf3 Nc6" ∧
      (validatePgnWithDetails oracleModel "1. e4 e5 2. Nf3 Nc6 3. Zz9 a6").failedAt =
        some "Zz9 (move 3)" ∧
      replaysTo oracleModel oracleModel.init
          (fallbackReplay oracleModel "1. e4 e5 2. Nf3 Nc6 3. Zz9 a6").accepted =
        some (fallbackReplay oracleModel "1. e4 e5 2. Nf3 Nc6 3. Zz9 a6").board := by
  have h := c2_replay_halt_prefix oracleModel
    (fun b t ht => absurd ht (List.not_mem_nil t))
    "1. e4 e5 2. Nf3 Nc6 3. Zz9 a6" (by decide)
  exact ⟨h.1, by rw [h.2.1]; decide, by rw [h.2.2.1]; decide,
    by rw [h.2.2.2.1]; decide, h.2.2.2.2⟩

/-- C2 (counterexample): on the spec's own example the reported accepted move
count is 2 — the number of full-move pairs — not 4 as the claim states, and
the recorded failure is the token with its full-move number, `"Zz9 (move 3)"`,
not a ply index; the four accepted plies themselves are exactly the prefix
before the failure. -/
theorem c2_move_count_counterexample :
    parsePgnTextInput oracleModel "1. e4 e5 2. Nf3 Nc6 3. Zz9 a6" =
      { success := true, pgn := some "1. e4 e5 2. Nf3 Nc6", movesFound := some 2,
        isPartial := some true } ∧
      ¬ (parsePgnTextInput oracleModel "1. e4 e5 2. Nf3 Nc6 3. Zz9 a6").movesFound =
        some 4 ∧
      (validatePgnWithDetails oracleModel "1. e4 e5 2. Nf3 Nc6 3. Zz9 a6").failedAt =
        some "Zz9 (move 3)" ∧
      (fallbackReplay oracleModel "1. e4 e5 2. Nf3 Nc6 3. Zz9 a6").accepted =
        ["e4", "e5", "Nf3", "Nc6"] := by decide

/-- `trimEnd` keeps a non-whitespace head. -/
theorem trimEndList_cons {c : Char} {cs : List Char} (hc : isJsWs c = false) :
    trimEndList (c :: cs) = c :: trimEndList cs := by
  unfold trimEndList
  rw [List.reverse_cons, List.dropWhile_append]
  by_cases h : (List.dropWhile isJsWs cs.reverse).isEmpty = true
  · rw [if_pos h]
    have heq : List.dropWhile isJsWs cs.reverse = [] := List.isEmpty_iff.mp h
    rw [show List.dropWhile isJsWs [c] = [c] from
      dropWhile_of_head (fun d hd => by cases hd; exact hc)]
    simp [heq]
  · rw [if_neg h]
    simp

/-- An empty trim means the whole string was whitespace. -/
theorem trimList_nil_all {l : List Char} (h : trimList l = []) :
    ∀ c ∈ l, isJsWs c = true := by
  unfold trimList at h
  have h1 : List.dropWhile isJsWs (l.dropWhile isJsWs).reverse = [] := by
    rwa [List.reverse_eq_nil_iff] at h
  have h3 : ∀ c ∈ l.dropWhile isJsWs, isJsWs c = true := fun c hc =>
    List.dropWhile_eq_nil_iff.mp h1 c (List.mem_reverse.mpr hc)
  intro c hc
  rcases List.mem_append.mp
      (by rw [List.takeWhile_append_dropWhile]; exact hc :
        c ∈ List.takeWhile isJsWs l ++ List.dropWhile isJsWs l) with h4 | h4
  · exact List.mem_takeWhile_imp h4
  · exact h3 c h4

/-- A string whose characters include a non-whitespace one does not trim to
the empty string. -/
theorem jsTrim_ne_empty {s : String} {c : Char} (hc : c ∈ s.data)
    (hcw : isJsWs c = false) : jsTrim s ≠ "" := by
  intro he
  have hdata : trimList s.data = [] := congrArg String.data he
  have := trimList_nil_all hdata c hc
  rw [hcw] at this
  cases this

/-- The formatted history of a nonempty history with nonempty notation
strings is nonempty: its first segment starts with the move number. -/
theorem formatHistoryAsPgn_ne {h : List String} (hl : 0 < h.length)
    (hts : ∀ t ∈ h, t ≠ "") : formatHistoryAsPgn h ≠ "" := by
  cases h with
  | nil => simp at hl
  | cons w rest =>
    have hw : w ≠ "" := hts w (by simp)
    have hdata : (toString 1 ++ ". " ++ w).data = '1' :: '.' :: ' ' :: w.data := by
      rw [show (toString 1 : String) = "1" from rfl, String.data_append, String.data_append]
      rfl
    have hseg : '1' ∈ (jsTrimEnd (toString 1 ++ ". " ++ w)).data := by
      show '1' ∈ trimEndList (toString 1 ++ ". " ++ w).data
      rw [hdata, trimEndList_cons (by decide)]
      simp
    have hone : '1' ∈ (joinSpace (fmtHist 1 (w :: rest))).data := by
      cases rest with
      | nil =>
        rw [show fmtHist 1 [w] = [jsTrimEnd (toString 1 ++ ". " ++ w)] by
          simp [fmtHist, hw]]
        exact hseg
      | cons b rest2 =>
        have hb : b ≠ "" := hts b (by simp)
        rw [show fmtHist 1 (w :: b :: rest2) =
            (jsTrimEnd (toString 1 ++ ". " ++ w) ++
              (if b ≠ "" then " " ++ b else "")) :: fmtHist 2 rest2 by
          simp [fmtHist, hw, hb]]
        have hx : '1' ∈ (jsTrimEnd (toString 1 ++ ". " ++ w) ++
            (if b ≠ "" then " " ++ b else "")).data := by
          rw [String.data_append]
          exact List.mem_append.mpr (Or.inl hseg)
        cases hfh : fmtHist 2 rest2 with
        | nil => exact hx
        | cons y ys =>
          show '1' ∈ (jsTrimEnd (toString 1 ++ ". " ++ w) ++
              (if b ≠ "" then " " ++ b else "") ++ " " ++
              joinSpace (y :: ys)).data
          rw [String.data_append, String.data_append]
          exact List.mem_append.mpr (Or.inl (List.mem_append.mpr (Or.inl hx)))
    exact jsTrim_ne_empty hone (by decide)

/-- A scan whose matcher always emits nonempty replacements preserves
nonemptiness. -/
theorem scanRepl_ne_nil {t : Try}
    (hrep : ∀ prev l r, t prev l = some r → r.1 ≠ []) :
    ∀ (n : Nat) (prev : Option Char) (l : List Char), l ≠ [] →
      scanRepl t n prev l ≠ [] := by
  intro n
  induction n with
  | zero => intro _ l h; exact h
  | succ n ih =>
    intro prev l h
    cases l with
    | nil => exact absurd rfl h
    | cons c cs =>
      show (match t prev (c :: cs) with
        | some (repl, lastc, rest) => repl ++ scanRepl t n (some lastc) rest
        | none => c :: scanRepl t n (some c) cs) ≠ []
      cases hm : t prev (c :: cs) with
      | none => simp
      | some r =>
        obtain ⟨repl, lastc, rest⟩ := r
        have hr : repl ≠ [] := hrep prev (c :: cs) _ hm
        intro hcon
        exact hr (List.append_eq_nil.mp hcon).1

/-- Global replace with nonempty replacements preserves nonemptiness. -/
theorem replaceG_ne_nil {t : Try}
    (hrep : ∀ prev l r, t prev l = some r → r.1 ≠ []) {l : List Char}
    (h : l ≠ []) : replaceG t l ≠ [] :=
  scanRepl_ne_nil hrep l.length none l h

/-- The castling-chain matcher always emits its fixed replacement text. -/
theorem tryCastleChain_ne_nil {cls : Char → Bool} {n : Nat} {repl : List Char}
    {bdry : Bool} (hrepl : repl ≠ []) :
    ∀ prev l r, tryCastleChain cls n repl bdry prev l = some r → r.1 ≠ [] := by
  intro prev l r h
  cases l with
  | nil => cases h
  | cons c cs =>
    have h' : (if cls c = true then
        (if (bdry && isWordStart prev) = true then none
         else
          match chainFrom cls n c cs with
          | some (lastc, rest) =>
            if (bdry && isWordNext rest) = true then none else some (repl, lastc, rest)
          | none => none)
      else none) = some r := h
    clear h
    split at h'
    · split at h'
      · cases h'
      · split at h'
        · split at h'
          · cases h'
          · cases h'
            exact hrepl
        · cases h'
    · cases h'

/-- The OCR `00` matcher always emits `O-O`. -/
theorem tryZeros2_ne_nil :
    ∀ prev l r, tryZeros2 prev l = some r → r.1 ≠ [] := by
  intro prev l r h
  cases l with
  | nil => cases h
  | cons c cs =>
    have h' : (if isZero c = true then
        (if isWordStart prev = true then none
         else
          match cs with
          | c2 :: rest =>
            if (isZero c2 && !isWordNext rest) = true then some ("O-O".data, c2, rest)
            else none
          | [] => none)
      else none) = some r := h
    clear h
    split at h'
    · split at h'
      · cases h'
      · split at h'
        · split at h'
          · cases h'
            simp
          · cases h'
        · cases h'
    · cases h'

/-- The OCR `000` matcher always emits `O-O-O`. -/
theorem tryZeros3_ne_nil :
    ∀ prev l r, tryZeros3 prev l = some r → r.1 ≠ [] := by
  intro prev l r h
  cases l with
  | nil => cases h
  | cons c cs =>
    have h' : (if isZero c = true then
        (if isWordStart prev = true then none
         else
          match cs with
          | c2 :: c3 :: rest =>
            if (isZero c2 && isZero c3 && !isWordNext rest) = true then
              some ("O-O-O".data, c3, rest)
            else none
          | _ => none)
      else none) = some r := h
    clear h
    split at h'
    · split at h'
      · cases h'
      · split at h'
        · split at h'
          · cases h'
            simp
          · cases h'
        · cases h'
    · cases h'

/-- The literal `0-0` matcher always emits `O-O`. -/
theorem tryLit00_ne_nil :
    ∀ prev l r, tryLit00 prev l = some r → r.1 ≠ [] := by
  intro prev l r h
  cases l with
  | nil => cases h
  | cons c cs =>
    have h' : (if isZero c = true then
        (if isWordStart prev = true then none
         else
          match cs with
          | '-' :: c2 :: rest =>
            if (isZero c2 && !isWordNext rest) = true then some ("O-O".data, c2, rest)
            else none
          | _ => none)
      else none) = some r := h
    clear h
    split at h'
    · split at h'
      · cases h'
      · split at h'
        · split at h'
          · cases h'
            simp
          · cases h'
        · cases h'
    · cases h'

/-- The literal `0-0-0` matcher always emits `O-O-O`. -/
theorem tryLit000_ne_nil :
    ∀ prev l r, tryLit000 prev l = some r → r.1 ≠ [] := by
  intro prev l r h
  cases l with
  | nil => cases h
  | cons c cs =>
    have h' : (if isZero c = true then
        (if isWordStart prev = true then none
         else
          match cs with
          | '-' :: c2 :: '-' :: c3 :: rest =>
            if (isZero c2 && isZero c3 && !isWordNext rest) = true then
              some ("O-O-O".data, c3, rest)
            else none
          | _ => none)
      else none) = some r := h
    clear h
    split at h'
    · split at h'
      · cases h'
      · split at h'
        · split at h'
          · cases h'
            simp
          · cases h'
        · cases h'
    · cases h'

set_option maxHeartbeats 2000000 in
/-- Castling normalization preserves nonemptiness. -/
theorem castleList_ne_nil {l : List Char} (h : l ≠ []) : castleList l ≠ [] := by
  show replaceG tryLit000 (replaceG tryLit00 (replaceG tryZeros3 (replaceG tryZeros2
    (replaceG (tryCastleChain isBigO 1 "O-O".data true)
      (replaceG (tryCastleChain isBigO 2 "O-O-O".data true)
        (replaceG (tryCastleChain isOLike 1 "O-O".data false)
          (replaceG (tryCastleChain isOLike 2 "O-O-O".data false)
            (replaceG (tryCastleChain isZero 1 "O-O".data false)
              (replaceG (tryCastleChain isZero 2 "O-O-O".data false) l))))))))) ≠ []
  exact replaceG_ne_nil tryLit000_ne_nil (replaceG_ne_nil tryLit00_ne_nil
    (replaceG_ne_nil tryZeros3_ne_nil (replaceG_ne_nil tryZeros2_ne_nil
      (replaceG_ne_nil (tryCastleChain_ne_nil (by decide))
        (replaceG_ne_nil (tryCastleChain_ne_nil (by decide))
          (replaceG_ne_nil (tryCastleChain_ne_nil (by decide))
            (replaceG_ne_nil (tryCastleChain_ne_nil (by decide))
              (replaceG_ne_nil (tryCastleChain_ne_nil (by decide))
                (replaceG_ne_nil (tryCastleChain_ne_nil (by decide)) h)))))))))

set_option maxHeartbeats 2000000 in
/-- Castling normalization of a nonempty string is nonempty. -/
theorem normalizeCastling_ne_empty {s : String} (h : s ≠ "") :
    normalizeCastling s ≠ "" := by
  intro he
  have hd : castleList s.data = [] := congrArg String.data he
  have hne : s.data ≠ [] := fun hnil => h (String.ext hnil)
  exact castleList_ne_nil hne hd

/-- The fallback branch never reports a valid parse. -/
theorem validateFallback_valid {β : Type} (O : Oracle β) (s : String) :
    (validateFallback O s).valid = false := by
  rw [validateFallback_eq]
  split <;> rfl

/-- A valid validation reports at least one full move. -/
theorem validate_valid_count {β : Type} (O : Oracle β) (s : String)
    (hv : (validatePgnWithDetails O s).valid = true) :
    1 ≤ (validatePgnWithDetails O s).moveCount := by
  have hshow : validatePgnWithDetails O s =
      (match O.loadPgn (stripPgnMetadata (normalizeCastling s)) with
        | some h =>
          if (h.length + 1) / 2 = 0 then
            validateFallback O (stripPgnMetadata (normalizeCastling s))
          else
            ({ valid := true, moveCount := (h.length + 1) / 2 } : ValidationResult)
        | none => validateFallback O (stripPgnMetadata (normalizeCastling s))) := rfl
  rw [hshow] at hv ⊢
  cases hl : O.loadPgn (stripPgnMetadata (normalizeCastling s)) with
  | some h =>
    rw [hl] at hv
    replace hv : (if (h.length + 1) / 2 = 0 then
        validateFallback O (stripPgnMetadata (normalizeCastling s))
      else
        ({ valid := true, moveCount := (h.length + 1) / 2 } : ValidationResult)).valid =
        true := hv
    show 1 ≤ (if (h.length + 1) / 2 = 0 then
        validateFallback O (stripPgnMetadata (normalizeCastling s))
      else
        ({ valid := true, moveCount := (h.length + 1) / 2 } : ValidationResult)).moveCount
    by_cases hmc : (h.length + 1) / 2 = 0
    · rw [if_pos hmc] at hv
      rw [validateFallback_valid] at hv
      cases hv
    · rw [if_neg hmc]
      show 1 ≤ (h.length + 1) / 2
      omega
  | none =>
    rw [hl] at hv
    replace hv : (validateFallback O (stripPgnMetadata (normalizeCastling s))).valid =
      true := hv
    rw [validateFallback_valid] at hv
    cases hv

/-- A truthy optional string is a present nonempty string. -/
theorem optTruthy_some {o : Option String} (h : optTruthy o = true) :
    ∃ p, o = some p ∧ p ≠ "" := by
  cases o with
  | none => simp [optTruthy] at h
  | some p => exact ⟨p, rfl, by simpa [optTruthy] using h⟩

/-- C10: whenever `parsePgnTextInput` resolves successfully the notation
field is present and nonempty and the reported move count is at least 1, for
every oracle whose whole-game histories contain no empty notation string. -/
theorem c10_success_invariants {β : Type} (O : Oracle β)
    (Hh : ∀ s h, O.loadPgn s = some h → ∀ t ∈ h, t ≠ "") (raw : String)
    (hsuc : (parsePgnTextInput O raw).success = true) :
    (∃ p, (parsePgnTextInput O raw).pgn = some p ∧ p ≠ "") ∧
      ∃ n, (parsePgnTextInput O raw).movesFound = some n ∧ 1 ≤ n := by
  by_cases hcl : cleanPgnInput raw = ""
  · have hres : parsePgnTextInput O raw =
        { success := false, error := some "Please paste a valid PGN string." } := by
      unfold parsePgnTextInput
      rw [if_pos hcl]
    rw [hres] at hsuc
    simp at hsuc
  · cases hfs : firstLoad O raw with
    | some h =>
      have hres : parsePgnTextInput O raw =
          { success := true, pgn := some (formatHistoryAsPgn h),
            movesFound := some ((h.length + 1) / 2) } := by
        unfold parsePgnTextInput
        rw [if_neg hcl, hfs]
      have hprop : 0 < h.length ∧ ∀ t ∈ h, t ≠ "" := by
        unfold firstLoad at hfs
        rcases List.exists_of_findSome?_eq_some hfs with ⟨c, _, hc⟩
        cases hlp : O.loadPgn c with
        | none => rw [hlp] at hc; cases hc
        | some h2 =>
          rw [hlp] at hc
          replace hc : (if 0 < h2.length then some h2 else none) = some h := hc
          by_cases hlen : 0 < h2.length
          · rw [if_pos hlen] at hc
            cases hc
            exact ⟨hlen, Hh c _ hlp⟩
          · rw [if_neg hlen] at hc
            cases hc
      rw [hres]
      exact ⟨⟨formatHistoryAsPgn h, rfl, formatHistoryAsPgn_ne hprop.1 hprop.2⟩,
        ⟨(h.length + 1) / 2, rfl, by omega⟩⟩
    | none =>
      have hres0 : parsePgnTextInput O raw =
          (if (validatePgnWithDetails O (validateArg raw)).valid = true then
            { success := true, pgn := some (validateArg raw),
              movesFound := some (validatePgnWithDetails O (validateArg raw)).moveCount }
          else if optTruthy (validatePgnWithDetails O (validateArg raw)).reconstructed = true ∧
              0 < (validatePgnWithDetails O (validateArg raw)).moveCount then
            { success := true,
              pgn := (validatePgnWithDetails O (validateArg raw)).reconstructed,
              movesFound := some (validatePgnWithDetails O (validateArg raw)).moveCount,
              isPartial := some true }
          else
            { success := false,
              error := some (match (validatePgnWithDetails O (validateArg raw)).failedAt with
                | some f => "Unable to parse PGN. Problem detected near " ++ f ++ "."
                | none =>
                  "Unable to parse PGN. Please verify the notation and try again.") }) := by
        unfold parsePgnTextInput
        rw [if_neg hcl, hfs]
      by_cases hv : (validatePgnWithDetails O (validateArg raw)).valid = true
      · rw [if_pos hv] at hres0
        rw [hres0]
        have hargne : validateArg raw ≠ "" := by
          unfold validateArg
          by_cases hstr : strippedOf raw ≠ ""
          · rwa [if_pos hstr]
          · rw [if_neg hstr]
            exact normalizeCastling_ne_empty hcl
        exact ⟨⟨validateArg raw, rfl, hargne⟩,
          ⟨(validatePgnWithDetails O (validateArg raw)).moveCount, rfl,
            validate_valid_count O _ hv⟩⟩
      · rw [if_neg hv] at hres0
        by_cases htr : optTruthy
            (validatePgnWithDetails O (validateArg raw)).reconstructed = true ∧
            0 < (validatePgnWithDetails O (validateArg raw)).moveCount
        · rw [if_pos htr] at hres0
          rw [hres0]
          rcases optTruthy_some htr.1 with ⟨p, hp, hpne⟩
          exact ⟨⟨p, hp, hpne⟩,
            ⟨(validatePgnWithDetails O (validateArg raw)).moveCount, rfl, htr.2⟩⟩
        · rw [if_neg htr] at hres0
          rw [hres0] at hsuc
          simp at hsuc

/-- C10 (witness): the invariants theorem applied at a concrete successful
input and the concrete oracle, hypotheses discharged concretely. -/
theorem c10_success_invariants_witness :
    (parsePgnTextInput oracleModel "1. e4").success = true ∧
      (∃ p, (parsePgnTextInput oracleModel "1. e4").pgn = some p ∧ p ≠ "") ∧
      ∃ n, (parsePgnTextInput oracleModel "1. e4").movesFound = some n ∧ 1 ≤ n :=
  ⟨by decide, c10_success_invariants oracleModel
    (by
      intro s h hlp t ht
      replace hlp : oracleLoadPgn s = some h := hlp
      unfold oracleLoadPgn at hlp
      split at hlp <;> first
        | (cases hlp; intro hemp; subst hemp; exact absurd ht (by decide))
        | cases hlp)
    "1. e4" (by decide)⟩

/-- C4 (amended/corrected): the concrete tabular example yields a result
identical to the text pipeline's Complete outcome on the equivalent numbered
text — same success, notation and count — although the CSV path maps rows
through exact-case `White`/`white` and `Black`/`black` field lookups and
performs no validation or replay of the tokens (see the counterexample). -/
theorem c4_csv_text_equivalence :
    parseCSVRows
        [[("White", "e4"), ("Black", "e5")], [("White", "Nf3"), ("Black", "Nc6")]] =
      parsePgnTextInput oracleModel "1. e4 e5 2. Nf3 Nc6" ∧
      parseCSVRows
          [[("White", "e4"), ("Black", "e5")], [("White", "Nf3"), ("Black", "Nc6")]] =
        { success := true, pgn := some "1. e4 e5 2. Nf3 Nc6",
          movesFound := some 2 } := by decide

/-- C4 (counterexample): headers are not matched case-insensitively — an
upper-case `WHITE`/`BLACK` header row yields a rejection — and the rows are
not validated or replayed by the validator/replayer: the illegal tokens
`zz`/`qq` succeed through the CSV path while the same notation is rejected by
the text pipeline. -/
theorem c4_csv_counterexample :
    (parseCSVRows [[("WHITE", "e4"), ("BLACK", "e5")]]).success = false ∧
      parseCSVRows [[("White", "zz"), ("Black", "qq")]] =
        { success := true, pgn := some "1. zz qq", movesFound := some 1 } ∧
      (parsePgnTextInput oracleModel "1. zz qq").success = false := by decide

/-- C9: the corrector never mutates the replay state: the state-threaded
embedding returns the `chess` argument unchanged — hence with the same FEN —
whether or not a replacement token is found, and its result component agrees
with the pure corrector used by the replayer; only the replayer applies
accepted corrections to the live board. -/
theorem c9_corrector_preserves_state {β : Type} (O : Oracle β) (mv : String) (b : β) :
    (tryOcrCorrectionsSt O mv b).2 = b ∧
      O.fen (tryOcrCorrectionsSt O mv b).2 = O.fen b ∧
      (tryOcrCorrectionsSt O mv b).1 = tryOcrCorrections O mv b :=
  ⟨rfl, rfl, rfl⟩

/-- An absent optional slot satisfies any class. -/
theorem OptSat_none {g : Char → Bool} : OptSat g none := fun _ hc => by cases hc

/-- A present optional slot satisfies its class when the character does. -/
theorem OptSat_some {g : Char → Bool} {c : Char} (h : g c = true) : OptSat g (some c) :=
  fun _ hc => by cases hc; exact h

/-- Characterization of the promotion tail matcher: it accepts exactly the
empty tail and a two-character `=⟨promo⟩` tail. -/
theorem matchPromoEnd_iff {promo : Char → Bool} {l : List Char} :
    matchPromoEnd promo l = true ↔ ∃ pr, l = promoL pr ∧ OptSat promo pr := by
  constructor
  · intro h
    cases l with
    | nil => exact ⟨none, rfl, fun c hc => by cases hc⟩
    | cons a t =>
      cases t with
      | nil => exact Bool.noConfusion (show false = true from h)
      | cons b t2 =>
        cases t2 with
        | cons c t3 => exact Bool.noConfusion (show false = true from h)
        | nil =>
          have h' : (a == '=' && promo b) = true := h
          obtain ⟨h1, h2⟩ := (Bool.and_eq_true _ _).mp h'
          have ha : a = '=' := by
            have hb := h1
            simp [beq_iff_eq] at hb
            exact hb
          exact ⟨some b, by rw [ha]; rfl, fun c hc => by cases hc; exact h2⟩
  · rintro ⟨pr, rfl, hsat⟩
    cases pr with
    | none => rfl
    | some c =>
      show ('=' == '=' && promo c) = true
      rw [Bool.and_eq_true]
      exact ⟨by decide, hsat c rfl⟩

/-- Characterization of the destination matcher as the destination
sub-language. -/
theorem matchDest_iff {file rank promo : Char → Bool} {l : List Char} :
    matchDest file rank promo l = true ↔ DestLang file rank promo l := by
  constructor
  · intro h
    cases l with
    | nil => exact Bool.noConfusion (show false = true from h)
    | cons d1 t =>
      cases t with
      | nil => exact Bool.noConfusion (show false = true from h)
      | cons d2 rest =>
        have h' : (file d1 && rank d2 && matchPromoEnd promo rest) = true := h
        obtain ⟨h12, h3⟩ := (Bool.and_eq_true _ _).mp h'
        obtain ⟨h1, h2⟩ := (Bool.and_eq_true _ _).mp h12
        obtain ⟨pr, hrest, hsat⟩ := matchPromoEnd_iff.mp h3
        exact ⟨d1, d2, pr, by simp [hrest], h1, h2, hsat⟩
  · rintro ⟨d1, d2, pr, rfl, h1, h2, hsat⟩
    show (file d1 && rank d2 && matchPromoEnd promo (promoL pr)) = true
    rw [Bool.and_eq_true, Bool.and_eq_true]
    exact ⟨⟨h1, h2⟩, matchPromoEnd_iff.mpr ⟨pr, rfl, hsat⟩⟩

/-- The optional-capture stage accepts exactly the flat decompositions with an
optional `x` slot. -/
theorem matchOptX_flat {file rank x promo : Char → Bool} {l : List Char} :
    matchOptX file rank x promo l = true ↔ FlatX file rank x promo l := by
  constructor
  · intro h
    rcases (Bool.or_eq_true _ _).mp h with h | h
    · cases l with
      | nil => exact Bool.noConfusion (show false = true from h)
      | cons c cs =>
        have h' : (x c && matchDest file rank promo cs) = true := h
        obtain ⟨hx, hd⟩ := (Bool.and_eq_true _ _).mp h'
        obtain ⟨d1, d2, pr, hcs, h1, h2, hsat⟩ := matchDest_iff.mp hd
        exact ⟨some c, d1, d2, pr, by simp [optL, hcs],
          OptSat_some hx, h1, h2, hsat⟩
    · obtain ⟨d1, d2, pr, hl, h1, h2, hsat⟩ := matchDest_iff.mp h
      exact ⟨none, d1, d2, pr, by simp [optL, hl],
        OptSat_none, h1, h2, hsat⟩
  · rintro ⟨xx, d1, d2, pr, rfl, hxx, h1, h2, hsat⟩
    unfold matchOptX
    rw [Bool.or_eq_true]
    cases xx with
    | none =>
      exact Or.inr (matchDest_iff.mpr ⟨d1, d2, pr, rfl, h1, h2, hsat⟩)
    | some c =>
      refine Or.inl ?_
      show (x c && matchDest file rank promo ([d1, d2] ++ promoL pr)) = true
      rw [Bool.and_eq_true]
      exact ⟨hxx c rfl, matchDest_iff.mpr ⟨d1, d2, pr, rfl, h1, h2, hsat⟩⟩

/-- The optional-rank stage accepts exactly the flat decompositions with
optional rank and `x` slots. -/
theorem matchOptRank_flat {file rank x promo : Char → Bool} {l : List Char} :
    matchOptRank file rank x promo l = true ↔ FlatR file rank x promo l := by
  constructor
  · intro h
    rcases (Bool.or_eq_true _ _).mp h with h | h
    · cases l with
      | nil => exact Bool.noConfusion (show false = true from h)
      | cons c cs =>
        have h' : (rank c && matchOptX file rank x promo cs) = true := h
        obtain ⟨hr, hx⟩ := (Bool.and_eq_true _ _).mp h'
        obtain ⟨xx, d1, d2, pr, hcs, hxx, h1, h2, hsat⟩ := matchOptX_flat.mp hx
        exact ⟨some c, xx, d1, d2, pr, by simp [optL, hcs],
          OptSat_some hr, hxx, h1, h2, hsat⟩
    · obtain ⟨xx, d1, d2, pr, hl, hxx, h1, h2, hsat⟩ := matchOptX_flat.mp h
      exact ⟨none, xx, d1, d2, pr, by simp [optL, hl],
        OptSat_none, hxx, h1, h2, hsat⟩
  · rintro ⟨rr, xx, d1, d2, pr, rfl, hrr, hxx, h1, h2, hsat⟩
    unfold matchOptRank
    rw [Bool.or_eq_true]
    cases rr with
    | none =>
      exact Or.inr (matchOptX_flat.mpr ⟨xx, d1, d2, pr, rfl, hxx, h1, h2, hsat⟩)
    | some c =>
      refine Or.inl ?_
      show (rank c && matchOptX file rank x promo (optL xx ++ [d1, d2] ++ promoL pr)) = true
      rw [Bool.and_eq_true]
      exact ⟨hrr c rfl, matchOptX_flat.mpr ⟨xx, d1, d2, pr, rfl, hxx, h1, h2, hsat⟩⟩

/-- The optional-file stage accepts exactly the flat decompositions with
optional file, rank and `x` slots. -/
theorem matchOptFile_flat {file rank x promo : Char → Bool} {l : List Char} :
    matchOptFile file rank x promo l = true ↔ FlatF file rank x promo l := by
  constructor
  · intro h
    rcases (Bool.or_eq_true _ _).mp h with h | h
    · cases l with
      | nil => exact Bool.noConfusion (show false = true from h)
      | cons c cs =>
        have h' : (file c && matchOptRank file rank x promo cs) = true := h
        obtain ⟨hf, hr⟩ := (Bool.and_eq_true _ _).mp h'
        obtain ⟨rr, xx, d1, d2, pr, hcs, hrr, hxx, h1, h2, hsat⟩ := matchOptRank_flat.mp hr
        exact ⟨some c, rr, xx, d1, d2, pr, by simp [optL, hcs],
          OptSat_some hf, hrr, hxx, h1, h2, hsat⟩
    · obtain ⟨rr, xx, d1, d2, pr, hl, hrr, hxx, h1, h2, hsat⟩ := matchOptRank_flat.mp h
      exact ⟨none, rr, xx, d1, d2, pr, by simp [optL, hl],
        OptSat_none, hrr, hxx, h1, h2, hsat⟩
  · rintro ⟨ff, rr, xx, d1, d2, pr, rfl, hff, hrr, hxx, h1, h2, hsat⟩
    unfold matchOptFile
    rw [Bool.or_eq_true]
    cases ff with
    | none =>
      exact Or.inr (matchOptRank_flat.mpr ⟨rr, xx, d1, d2, pr, rfl, hrr, hxx, h1, h2, hsat⟩)
    | some c =>
      refine Or.inl ?_
      show (file c &&
        matchOptRank file rank x promo (optL rr ++ optL xx ++ [d1, d2] ++ promoL pr)) = true
      rw [Bool.and_eq_true]
      exact ⟨hff c rfl,
        matchOptRank_flat.mpr ⟨rr, xx, d1, d2, pr, rfl, hrr, hxx, h1, h2, hsat⟩⟩

/-- The anchored move matcher accepts exactly the grammar language
`[piece]?[file]?[rank]?x?[file][rank](=promotion)?`. -/
theorem matchCore_flat {piece file rank x promo : Char → Bool} {l : List Char} :
    matchCore piece file rank x promo l = true ↔ CoreLang piece file rank x promo l := by
  constructor
  · intro h
    rcases (Bool.or_eq_true _ _).mp h with h | h
    · cases l with
      | nil => exact Bool.noConfusion (show false = true from h)
      | cons c cs =>
        have h' : (piece c && matchOptFile file rank x promo cs) = true := h
        obtain ⟨hp, hf⟩ := (Bool.and_eq_true _ _).mp h'
        obtain ⟨ff, rr, xx, d1, d2, pr, hcs, hff, hrr, hxx, h1, h2, hsat⟩ :=
          matchOptFile_flat.mp hf
        exact ⟨some c, ff, rr, xx, d1, d2, pr, by simp [optL, hcs],
          OptSat_some hp, hff, hrr, hxx, h1, h2, hsat⟩
    · obtain ⟨ff, rr, xx, d1, d2, pr, hl, hff, hrr, hxx, h1, h2, hsat⟩ :=
        matchOptFile_flat.mp h
      exact ⟨none, ff, rr, xx, d1, d2, pr, by simp [optL, hl],
        OptSat_none, hff, hrr, hxx, h1, h2, hsat⟩
  · rintro ⟨p, ff, rr, xx, d1, d2, pr, rfl, hpp, hff, hrr, hxx, h1, h2, hsat⟩
    unfold matchCore
    rw [Bool.or_eq_true]
    cases p with
    | none =>
      exact Or.inr
        (matchOptFile_flat.mpr ⟨ff, rr, xx, d1, d2, pr, rfl, hff, hrr, hxx, h1, h2, hsat⟩)
    | some c =>
      refine Or.inl ?_
      show (piece c && matchOptFile file rank x promo
        (optL ff ++ optL rr ++ optL xx ++ [d1, d2] ++ promoL pr)) = true
      rw [Bool.and_eq_true]
      exact ⟨hpp c rfl,
        matchOptFile_flat.mpr ⟨ff, rr, xx, d1, d2, pr, rfl, hff, hrr, hxx, h1, h2, hsat⟩⟩

set_option maxHeartbeats 1600000 in
/-- C3 (amended/corrected): `isValidMove` accepts a token exactly when it has
at least two characters and, after deleting every `+ # ? !` anywhere, trimming
and normalizing castling, the result is a castling literal, or contains a
lower-case file–rank pair and lies in the grammar
`[piece]?[file]?[rank]?x?[file][rank](=promotion)?` with every letter class
read case-insensitively (the regex `i` flag covers the whole pattern, not just
the piece letter). -/
theorem c3_validator_characterization (t : String) :
    isValidMove t = true ↔ AmendedValidMove t := by
  unfold isValidMove AmendedValidMove
  by_cases hlen : t.length < 2
  · rw [if_pos hlen]
    constructor
    · intro h
      exact Bool.noConfusion h
    · rintro ⟨h2, _⟩
      omega
  · rw [if_neg hlen]
    have h2 : 2 ≤ t.length := by omega
    by_cases hc : isCastleLit (normalizeCastling (jsTrim (removeMarks t))) = true
    · rw [if_pos hc]
      exact ⟨fun _ => ⟨h2, Or.inl hc⟩, fun _ => rfl⟩
    · rw [if_neg hc]
      cases hfr : hasFileRank (normalizeCastling (jsTrim (removeMarks t))) with
      | false =>
        rw [if_pos (show (!false) = true from rfl)]
        constructor
        · intro h
          exact Bool.noConfusion h
        · rintro ⟨_, hcl | ⟨hfr2, _⟩⟩
          · exact absurd hcl hc
          · exact Bool.noConfusion hfr2
      | true =>
        rw [if_neg (show ¬((!true) = true) by decide)]
        constructor
        · intro h
          exact ⟨h2, Or.inr ⟨rfl, matchCore_flat.mp h⟩⟩
        · rintro ⟨_, hcl | ⟨_, hcore⟩⟩
          · exact absurd hcl hc
          · exact matchCore_flat.mpr hcore

/-- C3 (witness): the characterization applied at the concrete token `e4`. -/
theorem c3_validator_characterization_witness :
    isValidMove "e4" = true ↔ AmendedValidMove "e4" :=
  c3_validator_characterization "e4"

set_option maxHeartbeats 1600000 in
/-- C3 (counterexample): the claim as written — castling literals or the
grammar with case-insensitivity only on the piece letter and only trailing
check/mate marks stripped — disagrees with the code: the `i` flag applies to
the whole regex and `+ # ? !` are deleted anywhere, so `De4` (upper-case file
letter), `e+4` (interior `+`) and `e8=n` (lower-case promotion letter) are all
accepted by `isValidMove` but rejected by the grammar as written. -/
theorem c3_case_insensitivity_counterexample :
    isValidMove "De4" = true ∧ specGrammarMove "De4" = false ∧
      isValidMove "e+4" = true ∧ specGrammarMove "e+4" = false ∧
      isValidMove "e8=n" = true ∧ specGrammarMove "e8=n" = false := by decide
